import Mathlib

/-!
Verification of the template subsystem of the `tk-core` repository
(`python/tank/template/`): a shallow embedding in Lean 4 of
`template.py` and `parsed_path.py` together with theorems settling the
frozen claims about the natural-language specification.

Modelling conventions:
  * Python strings are embedded as `List Char`; `str.lower()` becomes a
    character-wise ASCII lowering.  All inputs used in concrete theorems
    are ASCII.
  * The code under analysis is Python 2 (`dict(d.items() + [...])`,
    `map(str, ...)` used as a list, dict `min`), and it runs on a POSIX
    platform (`os.path.sep == '/'`, and `parsed_path.py` hard-codes the
    POSIX path `/home/joseph/...`); `os.path.normpath` / `os.path.join`
    are embedded with their `posixpath` semantics.
  * Python dicts whose keys are the fixed literal strings of a dict
    literal (the per-variation info dicts of `Template.__init__`) are
    embedded as a structure plus its association-list image
    (`TemplateVarInfo.toPyDict`); `ParsedPath.__init__` performs the
    dict lookups of `parsed_path.py` on that association list, so a
    missing entry is a `KeyError` exactly as in Python.
  * `TemplateKey` (`templatekey.py`) is not part of the analysed
    sources; it is modelled from the spec as an opaque capability
    record: name, optional fixed length, optional default,
    `value_from_str`, `str_from_value`.  Key object equality (`==` on
    key objects in `_keys_from_definition`) is modelled by a numeric
    identity tag `kid`.
  * Error messages built with `%`-formatting are embedded as structured
    values (`ParseMsg`, …) carrying the data that Python would format
    into the message; joining the candidate values in the ambiguity
    message raises `TypeError` in Python when a value is not a string,
    which the embedding mirrors.
  * The `logging.FileHandler` that `ParsedPath.__init__` installs is an
    observable filesystem effect; the embedding records it in an
    `ioTrace` field of the parser state.
-/

namespace TkCore

/-- Characters accepted by `TEMPLATE_KEY_NAME_REGEX = "[a-zA-Z_ 0-9\.]+"`
(`constants.py`). -/
def isNameChar (c : Char) : Bool :=
  c.isAlpha || c.isDigit || c = '_' || c = ' ' || c = '.'

/-- `str.lower()` on the embedded string (ASCII). -/
def lowerStr (s : List Char) : List Char :=
  s.map Char.toLower

/-- Values handled by template keys (integers and strings are the kinds
exercised here; the key record itself is opaque). -/
inductive TVal where
  | vstr (s : List Char)
  | vint (n : Int)
deriving DecidableEq, Repr

/-- A value held in a parsed-fields dictionary: either the raw substring
kept verbatim for a skip key, or a converted key value. -/
inductive PValue where
  | pstr (s : List Char)
  | pval (v : TVal)
deriving DecidableEq, Repr

/-- Modelled from the spec: `templatekey.py` is not among the analysed
sources; the spec describes a key as a capability record with a `name`,
an optional fixed `length`, an optional `default`, and the
`value_from_str` / `str_from_value` contract.  `kid` models Python
object identity, used for the `==` comparison between key objects. -/
structure TemplateKey where
  kid : Nat
  name : List Char
  length : Option Nat
  default : Option TVal
  valueFromStr : List Char → Except (List Char) TVal
  strFromValue : Option TVal → Except (List Char) (List Char)

instance : Inhabited TemplateKey :=
  ⟨{ kid := 0, name := [], length := none, default := none,
     valueFromStr := fun _ => Except.error [],
     strFromValue := fun _ => Except.error [] }⟩

/-- Key-object equality (`key1 != key2` in `_keys_from_definition`),
modelled through the identity tag. -/
def keyBeq (a b : TemplateKey) : Bool := a.kid == b.kid

/-- Association list with `List Char` keys: the embedding of a Python
dict built by item assignment (`d[k] = v`). -/
def AList (α : Type) : Type := List (List Char × α)

namespace AList

/-- `d.get(k)` / `d[k]`-style lookup (first matching entry). -/
def lookup {α : Type} (k : List Char) : AList α → Option α
  | [] => none
  | (k2, v) :: rest => if k = k2 then some v else lookup k rest

/-- `d[k] = v`: replace in place when the key is present, append
otherwise (Python dict assignment keeps the original position). -/
def insert {α : Type} (k : List Char) (v : α) : AList α → AList α
  | [] => [(k, v)]
  | (k2, v2) :: rest =>
      if k = k2 then (k, v) :: rest else (k2, v2) :: insert k v rest

/-- `k in d`. -/
def contains {α : Type} (k : List Char) (d : AList α) : Bool :=
  (lookup k d).isSome

/-- `len(d)`. -/
def size {α : Type} (d : AList α) : Nat := d.length

/-- The key list, in insertion order (`list(d)` / iteration order). -/
def keyList {α : Type} (d : AList α) : List (List Char) := d.map Prod.fst

/-- The value list, in insertion order (`d.values()`). -/
def valueList {α : Type} (d : AList α) : List α := d.map Prod.snd

end AList

/-- `path[i:j]` on the embedded string. -/
def slice (s : List Char) (i j : Nat) : List Char :=
  (s.take j).drop i

/-- One step of `re.finditer(re.escape(token), s)`: the token occurs at
the front of `rest`. -/
def tokenAt (token rest : List Char) : Bool :=
  token.isPrefixOf rest

/-- All start positions of the non-overlapping occurrences that
`re.finditer(re.escape(token), s)` yields, scanning left to right and
resuming after each match.  The first argument is recursion fuel: each
step consumes at least one character, so the scanned string's length
suffices. -/
def findOccurrencesFrom (token : List Char) : Nat → List Char → Nat → List Nat
  | 0, _, _ => []
  | _ + 1, [], _ => []
  | fuel + 1, c :: rest, i =>
      if tokenAt token (c :: rest) then
        i :: findOccurrencesFrom token fuel ((c :: rest).drop (max token.length 1))
          (i + max token.length 1)
      else
        findOccurrencesFrom token fuel rest (i + 1)

def findOccurrences (token s : List Char) : List Nat :=
  findOccurrencesFrom token s.length s 0

/-- `sub in s` (substring containment, used for `os.path.sep in value`). -/
def containsSub (sub : List Char) : List Char → Bool
  | [] => sub.isPrefixOf []
  | c :: rest => sub.isPrefixOf (c :: rest) || containsSub sub rest

/-- `s.split(sep)` for a single-character separator (CPython
`str.split` with an explicit separator: empty pieces are kept). -/
def splitOnChar (sep : Char) : List Char → List (List Char)
  | [] => [[]]
  | c :: rest =>
      let r := splitOnChar sep rest
      if c = sep then [] :: r
      else
        match r with
        | [] => [[c]]
        | piece :: more => (c :: piece) :: more

/-- `sep.join(pieces)` for a single-character separator. -/
def joinWithChar (sep : Char) : List (List Char) → List Char
  | [] => []
  | [p] => p
  | p :: rest => p ++ sep :: joinWithChar sep rest

/-- `posixpath.normpath`: squash `//`, drop `.` components, resolve
`..` textually, preserve one or two leading slashes, return `.` for an
empty result. -/
def normpath (path : List Char) : List Char :=
  if path = [] then ['.']
  else
    let initialSlashes : Nat :=
      if ['/'].isPrefixOf path then
        if ['/', '/'].isPrefixOf path && ¬ ['/', '/', '/'].isPrefixOf path
        then 2 else 1
      else 0
    let comps := splitOnChar '/' path
    let newComps := comps.foldl
      (fun acc comp =>
        if comp = [] || comp = ['.'] then acc
        else if comp ≠ ['.', '.'] || (initialSlashes = 0 && acc = [])
                || (acc ≠ [] && acc.getLast? = some ['.', '.']) then
          acc ++ [comp]
        else if acc ≠ [] then acc.dropLast
        else acc)
      []
    let joined := List.replicate initialSlashes '/' ++ joinWithChar '/' newComps
    if joined = [] then ['.'] else joined

/-- `posixpath.join(a, b)`. -/
def joinPath (a b : List Char) : List Char :=
  if ['/'].isPrefixOf b then b
  else if a = [] || a.getLast? = some '/' then a ++ b
  else a ++ '/' :: b

/-! ## `template.py`: definition tokenising and `Template` -/

/-- Construction-time errors (`TankError` raised by `Template.__init__`
helpers), structured by cause. -/
inductive DefErr where
  | optionalNoKey
  | strayBrackets
  | unknownKey (templateName : Option (List Char)) (keyName : List Char)
  | dupKeyName (templateName : Option (List Char)) (keyName : List Char)
deriving DecidableEq, Repr

/-- Index of the first occurrence of a character. -/
def findCharIdx (c : Char) : List Char → Option Nat
  | [] => none
  | d :: rest =>
      if d = c then some 0 else (findCharIdx c rest).map (· + 1)

/-- One match of `re.search(r"\[[^]]*\]", s)`: the segment from the
first `[` that has a `]` after it, up to (and including) the first such
`]`.  Returns `(before, match, after)`. -/
def findBracketMatch (s : List Char) : Option (List Char × List Char × List Char) :=
  match findCharIdx '[' s with
  | none => none
  | some i =>
      match findCharIdx ']' (s.drop (i + 1)) with
      | none => none
      | some j =>
          some (s.take i, slice s i (i + 1 + j + 1), s.drop (i + 1 + j + 1))

theorem findCharIdx_lt_length {c : Char} {s : List Char} {i : Nat}
    (h : findCharIdx c s = some i) : i < s.length := by
  induction s generalizing i with
  | nil => simp [findCharIdx] at h
  | cons d rest ih =>
      simp only [findCharIdx] at h
      split at h
      · simp at h
        simp [List.length_cons]
        omega
      · simp only [Option.map_eq_some'] at h
        obtain ⟨j, hj, rfl⟩ := h
        have := ih hj
        simp [List.length_cons]
        omega

theorem findBracketMatch_rest_length {s pre mat rest : List Char}
    (h : findBracketMatch s = some (pre, mat, rest)) :
    rest.length < s.length := by
  simp only [findBracketMatch] at h
  rcases h1 : findCharIdx '[' s with _ | i <;> rw [h1] at h <;> try simp at h
  rcases h2 : findCharIdx ']' (s.drop (i + 1)) with _ | j <;> rw [h2] at h <;>
    try simp at h
  obtain ⟨-, -, hrest⟩ := h
  have hi := findCharIdx_lt_length h1
  subst hrest
  simp [List.length_drop]
  omega

/-- `re.split(r"(\[[^]]*\])", definition)`: pieces interleaved with the
captured bracketed segments (fuel: the rest after a match is strictly
shorter, `findBracketMatch_rest_length`, so the string's length
suffices; out of fuel the string must be empty and matchless). -/
def splitBracketTokensF : Nat → List Char → List (List Char)
  | 0, s => [s]
  | fuel + 1, s =>
      match findBracketMatch s with
      | none => [s]
      | some (pre, mat, rest) => pre :: mat :: splitBracketTokensF fuel rest

def splitBracketTokens (s : List Char) : List (List Char) :=
  splitBracketTokensF s.length s

/-- `re.search("{*%s}" % TEMPLATE_KEY_NAME_REGEX, token)`: since the
leading `{*` may match zero braces, the pattern matches iff some
key-name character is immediately followed by `}`. -/
def hasKeyDefCheck : List Char → Bool
  | a :: b :: rest => (isNameChar a && b = '}') || hasKeyDefCheck (b :: rest)
  | _ => false

/-- `re.search("[\[\]]", token)`. -/
def containsBracketChar (s : List Char) : Bool :=
  s.any (fun c => c = '[' || c = ']')

/-- `re.sub('[\[\]]', '', token)`. -/
def stripSquareBrackets (s : List Char) : List Char :=
  s.filter (fun c => ¬ (c = '[' || c = ']'))

/-- One loop iteration of `Template._definition_variations`. -/
def definitionVariationsStep (definitions : List (List Char)) (token : List Char) :
    Except DefErr (List (List Char)) :=
  if token = [] then Except.ok definitions
  else if token.head? = some '[' ∧ ¬ hasKeyDefCheck token then
    Except.error DefErr.optionalNoKey
  else if containsBracketChar
      (if token.head? = some '[' then stripSquareBrackets token else token) then
    Except.error DefErr.strayBrackets
  else
    Except.ok ((if token.head? = some '[' then definitions else []) ++
      definitions.map
        (· ++ (if token.head? = some '[' then stripSquareBrackets token else token)))

/-- Stable insertion keeping longer strings first: the element goes
after every element of length ≥ its own (`sorted(key=len, reverse=True)`
is stable). -/
def insertByLenDesc (x : List Char) : List (List Char) → List (List Char)
  | [] => [x]
  | y :: rest =>
      if y.length < x.length then x :: y :: rest else y :: insertByLenDesc x rest

/-- `sorted(definitions, key=lambda x: len(x), reverse=True)`. -/
def sortByLenDesc (l : List (List Char)) : List (List Char) :=
  l.foldl (fun acc x => insertByLenDesc x acc) []

/-- `Template._definition_variations`. -/
def definitionVariations (definition : List Char) : Except DefErr (List (List Char)) := do
  let tokens := splitBracketTokens definition
  let definitions ← tokens.foldlM definitionVariationsStep [[]]
  pure (sortByLenDesc definitions)

/-- `re.findall(r"(?<={)%s(?=})" % TEMPLATE_KEY_NAME_REGEX, definition)`:
the maximal nonempty runs of key-name characters enclosed in braces
(fuel: every step consumes at least one character). -/
def findKeyRefsF : Nat → List Char → List (List Char)
  | 0, _ => []
  | _ + 1, [] => []
  | fuel + 1, '{' :: rest =>
      let run := rest.takeWhile isNameChar
      if run ≠ [] ∧ (rest.drop run.length).head? = some '}' then
        run :: findKeyRefsF fuel (rest.drop run.length)
      else
        findKeyRefsF fuel rest
  | fuel + 1, _ :: rest => findKeyRefsF fuel rest

def findKeyRefs (s : List Char) : List (List Char) :=
  findKeyRefsF s.length s

/-- The recursion of `Template._keys_from_definition` over the found
key names, threading `names_keys` and `ordered_keys`. -/
def keysFromNames (templateName : Option (List Char)) (keys : AList TemplateKey) :
    List (List Char) → AList TemplateKey → List TemplateKey →
    Except DefErr (AList TemplateKey × List TemplateKey)
  | [], named, ordered => Except.ok (named, ordered)
  | keyName :: rest, named, ordered =>
      match AList.lookup keyName keys with
      | none => Except.error (DefErr.unknownKey templateName keyName)
      | some key =>
          if keyBeq ((AList.lookup key.name named).getD key) key then
            keysFromNames templateName keys rest
              (AList.insert key.name key named) (ordered ++ [key])
          else
            Except.error (DefErr.dupKeyName templateName key.name)

/-- `Template._keys_from_definition`. -/
def keysFromDefinition (definition : List Char) (templateName : Option (List Char))
    (keys : AList TemplateKey) : Except DefErr (AList TemplateKey × List TemplateKey) :=
  keysFromNames templateName keys (findKeyRefs definition) [] []

/-- A regex character of the (unescaped) pattern `{%s}` built from a key
name in `Template._fix_key_names`: `.` matches any character. -/
def patCharMatches (p c : Char) : Bool := p = '.' || p = c

/-- The pattern matches a prefix of `s`, consuming `pat.length`
characters. -/
def patMatchesPrefix (pat s : List Char) : Bool :=
  pat.length ≤ s.length && (pat.zip s).all (fun pc => patCharMatches pc.1 pc.2)

/-- `re.sub(pat, repl, s)` for a pattern of literal characters and `.`
wildcards (left-to-right, non-overlapping).  Patterns used here are
never empty (they have the shape of a braced key name; fuel: every
step consumes at least one character). -/
def reSubPatF (pat repl : List Char) : Nat → List Char → List Char
  | 0, s => s
  | _ + 1, [] => []
  | fuel + 1, c :: rest =>
      if pat ≠ [] ∧ patMatchesPrefix pat (c :: rest) then
        repl ++ reSubPatF pat repl fuel ((c :: rest).drop pat.length)
      else
        c :: reSubPatF pat repl fuel rest

def reSubPat (pat repl s : List Char) : List Char :=
  reSubPatF pat repl s.length s

/-- `Template._fix_key_names`. -/
def fixKeyNames (definition : List Char) (keys : AList TemplateKey) : List Char :=
  keys.foldl
    (fun d entry =>
      if entry.1 ≠ entry.2.name then
        reSubPat ('{' :: entry.1 ++ ['}']) ('{' :: entry.2.name ++ ['}']) d
      else d)
    definition

/-- `Template._clean_definition`: rewrite every braced key reference to
the `%(name)s` positional-format token (fuel: every step consumes at
least one character). -/
def cleanDefinitionF : Nat → List Char → List Char
  | 0, s => s
  | _ + 1, [] => []
  | fuel + 1, '{' :: rest =>
      let run := rest.takeWhile isNameChar
      if run ≠ [] ∧ (rest.drop run.length).head? = some '}' then
        '%' :: '(' :: (run ++ ')' :: 's' :: cleanDefinitionF fuel (rest.drop (run.length + 1)))
      else
        '{' :: cleanDefinitionF fuel rest
  | fuel + 1, c :: rest => c :: cleanDefinitionF fuel rest

def cleanDefinition (s : List Char) : List Char :=
  cleanDefinitionF s.length s

/-- `re.split(r"{%s}" % TEMPLATE_KEY_NAME_REGEX, s)` (fuel: every step
consumes at least one character). -/
def splitOnKeyRefsF : Nat → List Char → List (List Char)
  | 0, _ => [[]]
  | _ + 1, [] => [[]]
  | fuel + 1, '{' :: rest =>
      let run := rest.takeWhile isNameChar
      if run ≠ [] ∧ (rest.drop run.length).head? = some '}' then
        [] :: splitOnKeyRefsF fuel (rest.drop (run.length + 1))
      else
        match splitOnKeyRefsF fuel rest with
        | [] => [['{']]
        | piece :: more => ('{' :: piece) :: more
  | fuel + 1, c :: rest =>
      match splitOnKeyRefsF fuel rest with
      | [] => [[c]]
      | piece :: more => (c :: piece) :: more

def splitOnKeyRefs (s : List Char) : List (List Char) :=
  splitOnKeyRefsF s.length s

/-- `Template._calc_static_tokens`. -/
def calcStaticTokens (definition prefixStr : List Char) : List (List Char) :=
  let expanded := if definition ≠ [] then joinPath prefixStr definition else prefixStr
  (splitOnKeyRefs (lowerStr expanded)).filter (· ≠ [])

/-- The value stored for one variation in `Template.__init__`
(the dict literal with entries `keys`, `ordered_keys`, `definition`,
`cleaned_definition`, `static_tokens`). -/
structure TemplateVarInfo where
  keys : AList TemplateKey
  ordered_keys : List TemplateKey
  definition : List Char
  cleaned_definition : List Char
  static_tokens : List (List Char)

instance : Inhabited TemplateVarInfo :=
  ⟨{ keys := [], ordered_keys := [], definition := [],
     cleaned_definition := [], static_tokens := [] }⟩

/-- `Template`: name, prefix (`_prefix`; renamed because `prefix` is
reserved in Lean), and the `_variations` ordered dict. -/
structure Template where
  name : Option (List Char)
  prefixStr : List Char
  variations : List (List Char × TemplateVarInfo)

instance : Inhabited Template := ⟨{ name := none, prefixStr := [], variations := [] }⟩

/-- The loop body of `Template.__init__`: compute one variation's
info dict. -/
def mkVarInfo (keys : AList TemplateKey) (name : Option (List Char))
    (prefixStr : List Char) (varName : List Char) : Except DefErr TemplateVarInfo := do
  let kk ← keysFromDefinition varName name keys
  let varDefinition := fixKeyNames varName keys
  pure { keys := kk.1
         ordered_keys := kk.2
         definition := varDefinition
         cleaned_definition := cleanDefinition varDefinition
         static_tokens := calcStaticTokens varDefinition prefixStr }

/-- The `for var_name in variations` loop of `Template.__init__`,
filling the `_variations` ordered dict. -/
def variationsFold (keys : AList TemplateKey) (name : Option (List Char))
    (prefixStr : List Char) :
    List (List Char) → List (List Char × TemplateVarInfo) →
    Except DefErr (List (List Char × TemplateVarInfo))
  | [], acc => Except.ok acc
  | varName :: rest, acc => do
      let info ← mkVarInfo keys name prefixStr varName
      variationsFold keys name prefixStr rest (AList.insert varName info acc)

/-- `Template.__init__` (the `_repr_def` attribute, used only by
`__repr__`, is not modelled). -/
def mkTemplate (definition : List Char) (keys : AList TemplateKey)
    (name : Option (List Char)) (prefixStr : List Char) : Except DefErr Template := do
  let varNames ← definitionVariations definition
  let variations ← variationsFold keys name prefixStr varNames []
  pure { name := name, prefixStr := prefixStr, variations := variations }

/-- `self._keys`: the per-variation key dicts, in variation order. -/
def Template.keysList (T : Template) : List (AList TemplateKey) :=
  T.variations.map (fun v => v.2.keys)

/-! ## `template.py`: missing keys, `apply_fields`, `is_optional` -/

/-- A user-supplied fields mapping: an entry bound to `none` models a
key explicitly present with the Python value `None`. -/
def Fields : Type := List (List Char × Option TVal)

/-- `fields.get(k)`: collapses an absent entry and an entry bound to
`None` (both give Python `None`). -/
def pyGet (fields : Fields) (k : List Char) : Option TVal :=
  match AList.lookup (α := Option TVal) k fields with
  | none => none
  | some v => v

/-- The names iterated by `_missing_keys`: with `skip_defaults`, the
names of the keys whose `default` is `None`; otherwise the dict itself
is iterated, i.e. all key names in insertion order. -/
def requiredNames (keys : AList TemplateKey) (skipDefaults : Bool) : List (List Char) :=
  if skipDefaults then
    ((AList.valueList keys).filter (fun k => k.default = none)).map (fun k => k.name)
  else
    AList.keyList keys

/-- `Template._missing_keys`. -/
def missingKeysAux (fields : Fields) (keys : AList TemplateKey) (skipDefaults : Bool) :
    List (List Char) :=
  (requiredNames keys skipDefaults).filter (fun k => (pyGet fields k).isNone)

/-- Strict lexicographic order on `Nat` lists (used for the modelled
dict tie-break). -/
def lexNatLt : List Nat → List Nat → Bool
  | [], [] => false
  | [], _ :: _ => true
  | _ :: _, [] => false
  | a :: x, b :: y => if a < b then true else if a = b then lexNatLt x y else false

def insertByLex (x : List Nat) : List (List Nat) → List (List Nat)
  | [] => [x]
  | y :: rest => if lexNatLt x y then x :: y :: rest else y :: insertByLex x rest

/-- A canonical flattening of a key dict: its entries as
`(name, kid)` codes, sorted. -/
def flattenKeysDict (d : AList TemplateKey) : List Nat :=
  let codes := d.map (fun e => (e.1.map Char.toNat) ++ [e.2.kid])
  (codes.foldl (fun acc x => insertByLex x acc) []).foldl (· ++ ·) []

/-- The two dicts hold the same mapping (`==` on Python dicts: same
keys, equal values — key objects compared by identity). -/
def keysDictEquiv (a b : AList TemplateKey) : Bool :=
  a.all (fun e => match AList.lookup (α := TemplateKey) e.1 b with
    | some w => keyBeq e.2 w
    | none => false) &&
  b.all (fun e => match AList.lookup (α := TemplateKey) e.1 a with
    | some w => keyBeq e.2 w
    | none => false)

/-- Python-2 `cmp` on dicts, as `<`: compares lengths first; equal
dicts are not `<`.  For same-size unequal dicts CPython's outcome
depends on object addresses; it is modelled here by a deterministic
lexicographic tie-break — no theorem relies on the tie-break, only on
the documented size-first behaviour. -/
def pyDictLt (a b : AList TemplateKey) : Bool :=
  if AList.size a ≠ AList.size b then AList.size a < AList.size b
  else if keysDictEquiv a b then false
  else lexNatLt (flattenKeysDict a) (flattenKeysDict b)

/-- Python `min` over a list of key dicts (`min(self._keys)`).
Python raises `ValueError` on an empty list; a `Template` always has at
least one variation, so the `[]` case is unreachable. -/
def pyDictMin : List (AList TemplateKey) → AList TemplateKey
  | [] => []
  | d :: rest => rest.foldl (fun acc x => if pyDictLt x acc then x else acc) d

/-- `Template.is_optional`. -/
def isOptional (T : Template) (keyName : List Char) : Bool :=
  if AList.contains keyName (pyDictMin T.keysList) then false else true

/-- `Template.missing_keys` (public form; computed against the
`min` key dict). -/
def missingKeys (T : Template) (fields : Fields) (skipDefaults : Bool) :
    List (List Char) :=
  missingKeysAux fields (pyDictMin T.keysList) skipDefaults

/-- Errors raised out of `Template._apply_fields`, structured by cause
(`TankError` texts and the `%`-format failures; the message renderings
are not modelled, the data they are built from is). -/
inductive ApplyErr where
  | missingFields (missing : List (List Char))
  | strFromValueErr (keyName msg : List Char)
  | formatKeyErr (name : List Char)
  | formatValueErr
  | nameErr
deriving DecidableEq, Repr

/-- The `processed_fields` loop of `_apply_fields`: stringify each key
value of the chosen variation with `str_from_value` (`ignore_types` is
always empty for `apply_fields`, so `ignore_type` is always false and
is not modelled as a parameter). -/
def processedFields (fields : Fields) (keys : AList TemplateKey) :
    Except ApplyErr (AList (List Char)) :=
  keys.foldlM
    (fun acc entry =>
      match entry.2.strFromValue (pyGet fields entry.1) with
      | Except.ok s => Except.ok (AList.insert entry.1 s acc)
      | Except.error e => Except.error (ApplyErr.strFromValueErr entry.1 e))
    []

/-- `cleaned_definition % processed_fields`: Python `%`-formatting with
a mapping.  Every `%` must start a `%(name)s` spec (or `%%`); the
cleaned definitions built by `_clean_definition` only ever contain
`%(name)s`. -/
def pyFormatMapF (m : AList (List Char)) : Nat → List Char → Except ApplyErr (List Char)
  | 0, _ => Except.ok []
  | _ + 1, [] => Except.ok []
  | fuel + 1, '%' :: rest =>
      match rest with
      | '(' :: rest2 =>
          let nm := rest2.takeWhile (fun c => c ≠ ')')
          if (rest2.drop nm.length).head? = some ')' ∧
             (rest2.drop (nm.length + 1)).head? = some 's' then
            match AList.lookup (α := List Char) nm m with
            | none => Except.error (ApplyErr.formatKeyErr nm)
            | some v =>
                match pyFormatMapF m fuel (rest2.drop (nm.length + 2)) with
                | Except.error e => Except.error e
                | Except.ok tail => Except.ok (v ++ tail)
          else Except.error ApplyErr.formatValueErr
      | '%' :: rest2 =>
          match pyFormatMapF m fuel rest2 with
          | Except.error e => Except.error e
          | Except.ok tail => Except.ok ('%' :: tail)
      | _ => Except.error ApplyErr.formatValueErr
  | fuel + 1, c :: rest =>
      match pyFormatMapF m fuel rest with
      | Except.error e => Except.error e
      | Except.ok tail => Except.ok (c :: tail)

def pyFormatMap (m : AList (List Char)) (s : List Char) : Except ApplyErr (List Char) :=
  pyFormatMapF m s.length s

/-- The selection loop of `_apply_fields`: find the first variation
(in `_variations` order) whose required keys are all present, carrying
the `missing_keys` of the last checked variation. -/
def applyLoop (fields : Fields) :
    List (List Char × TemplateVarInfo) → List (List Char) →
    Option TemplateVarInfo × List (List Char)
  | [], lastMissing => (none, lastMissing)
  | v :: rest, _ =>
      let m := missingKeysAux fields v.2.keys true
      if m = [] then (some v.2, m) else applyLoop fields rest m

/-- `Template._apply_fields` (platform `None`: the base class renders
the cleaned definition; `TemplatePath`'s root joining is out of the
claims' scope).  An empty variation list would leave `missing_keys`
unbound in Python (`NameError`). -/
def applyFields (T : Template) (fields : Fields) : Except ApplyErr (List Char) :=
  match applyLoop fields T.variations [] with
  | (some varInfo, _) => do
      let pf ← processedFields fields varInfo.keys
      pyFormatMap pf varInfo.cleaned_definition
  | (none, lastMissing) =>
      if T.variations.isEmpty then Except.error ApplyErr.nameErr
      else Except.error (ApplyErr.missingFields lastMissing)

/-! ## `parsed_path.py`: the parser -/

/-- Structured content of the parser's `last_error` messages (the data
Python formats into the message strings). -/
inductive ParseMsg where
  | staticMismatch (token path : List Char)
  | tokenNotFound (path : List Char) (startPos : Nat) (token : List Char)
  | ambiguousValues (keyName : List Char) (values : List (List Char))
  | noFit (path : List Char)
deriving DecidableEq, Repr

/-- Python-level exceptions that can escape construction and parsing
(`KeyError` from a dict subscript, `TypeError` from joining non-string
values, `AttributeError` from `None.last_error`, and the `TankError`
that `get_fields` raises when all variations fail). -/
inductive PyErr where
  | keyErr (k : String)
  | typeErr
  | attrErr (a : String)
  | tankParseErr (templateName : Option (List Char)) (msg : Option ParseMsg)
deriving DecidableEq, Repr

/-- A `parts` element: a literal token or a `TemplateKey`. -/
inductive Part where
  | lit (s : List Char)
  | key (k : TemplateKey)

/-- The `ResolvedValue` namedtuple. -/
inductive ResolvedValue where
  | mk (value : Option PValue) (downstream : List ResolvedValue)
       (fullyResolved : Bool) (lastError : Option ParseMsg)

def ResolvedValue.value : ResolvedValue → Option PValue
  | .mk v _ _ _ => v

def ResolvedValue.downstream : ResolvedValue → List ResolvedValue
  | .mk _ d _ _ => d

def ResolvedValue.fullyResolved : ResolvedValue → Bool
  | .mk _ _ f _ => f

def ResolvedValue.lastErrorRV : ResolvedValue → Option ParseMsg
  | .mk _ _ _ e => e

/-- Dict-literal field names of the variation info consumed and produced
around the parser. -/
def dkKeys : String := "keys"
def dkOrderedKeys : String := "ordered_keys"
def dkDefinition : String := "definition"
def dkCleanedDefinition : String := "cleaned_definition"
def dkStaticTokens : String := "static_tokens"
def dkNamedKeys : String := "named_keys"
def dkExpanded : String := "expanded"
def dkLastError : String := "last_error"

/-- The hard-coded log file that `ParsedPath.__init__` opens through
`logging.FileHandler`. -/
def parserLogPath : String := "/home/joseph/repos/tk-core/var/parser.log"

/-- A value stored in a Python variation-info dict. -/
inductive VarVal where
  | keysV (d : AList TemplateKey)
  | keyListV (l : List TemplateKey)
  | strV (s : List Char)
  | tokensV (ts : List (List Char))

/-- Lookup in a `str`-keyed Python dict. -/
def pyDictLookup (k : String) : List (String × VarVal) → Option VarVal
  | [] => none
  | (k2, v) :: rest => if k = k2 then some v else pyDictLookup k rest

/-- The dict literal that `Template.__init__` stores for a variation
(`self._variations[var_name] = {...}`). -/
def TemplateVarInfo.toPyDict (v : TemplateVarInfo) : List (String × VarVal) :=
  [(dkKeys, VarVal.keysV v.keys),
   (dkOrderedKeys, VarVal.keyListV v.ordered_keys),
   (dkDefinition, VarVal.strV v.definition),
   (dkCleanedDefinition, VarVal.strV v.cleaned_definition),
   (dkStaticTokens, VarVal.tokensV v.static_tokens)]

/-- `ParsedPath._create_definition_parts`: scan the expanded definition
with the key-reference regex, alternating the literal tokens between
matches with the referenced keys (a reference whose name is not in
`named_keys` contributes nothing).  The first argument accumulates the
pending literal in reverse (fuel: every step consumes at least one
character of the scanned string). -/
def partsScanF (namedKeys : AList TemplateKey) : Nat → List Char → List Char → List Part
  | 0, pending, _ => if pending.isEmpty then [] else [Part.lit pending.reverse]
  | _ + 1, pending, [] => if pending.isEmpty then [] else [Part.lit pending.reverse]
  | fuel + 1, pending, '{' :: rest =>
      let run := rest.takeWhile isNameChar
      if run ≠ [] ∧ (rest.drop run.length).head? = some '}' then
        (if pending.isEmpty then [] else [Part.lit pending.reverse]) ++
        (match AList.lookup (α := TemplateKey) run namedKeys with
         | some k => [Part.key k]
         | none => []) ++
        partsScanF namedKeys fuel [] (rest.drop (run.length + 1))
      else
        partsScanF namedKeys fuel ('{' :: pending) rest
  | fuel + 1, pending, c :: rest => partsScanF namedKeys fuel (c :: pending) rest

def createDefinitionParts (namedKeys : AList TemplateKey) (definition : List Char) :
    List Part :=
  partsScanF namedKeys definition.length [] definition

/-- `self.ordered_keys`: the key elements of `parts`, in order. -/
def orderedKeysOf (parts : List Part) : List TemplateKey :=
  parts.filterMap (fun p => match p with | Part.key k => some k | Part.lit _ => none)

/-- `ParsedPath._empty_ordered_keys_fields`. -/
def emptyOrderedKeysFields (lowerPath : List Char) (staticTokens : List (List Char)) :
    Option (AList PValue) × Option ParseMsg :=
  match staticTokens with
  | [] => (none, none)
  | t0 :: _ =>
      if lowerPath = t0 then (some [], none)
      else (none, some (ParseMsg.staticMismatch t0 lowerPath))

/-- The token loop of `ParsedPath._get_token_positions`: for each token
collect the occurrence positions at or after `previous_start`; the next
token's window starts after the first collected occurrence.  A token
with no positions sets the error and breaks (third component). -/
def gtpLoop (lowerPath : List Char) :
    List (List Char) → Nat → List (List Nat) × Option ParseMsg × Bool
  | [], _ => ([], none, false)
  | token :: rest, startPos =>
      let positions := (findOccurrences token lowerPath).filter (fun p => startPos ≤ p)
      match positions with
      | [] => ([], some (ParseMsg.tokenNotFound lowerPath startPos token), true)
      | p0 :: _ =>
          let r := gtpLoop lowerPath rest (p0 + token.length)
          (positions :: r.1, r.2.1, r.2.2)

/-- The reversed-index pruning loop of `_get_token_positions`: process
from the last token backwards, keeping positions strictly below the
running `max_index` and updating it to the max of the kept positions
(`0` when none are kept). -/
def pruneTokenPositions : List (List Nat) → Nat → List (List Nat) × Nat
  | [], maxIndex => ([], maxIndex)
  | hd :: tl, maxIndex =>
      let r := pruneTokenPositions tl maxIndex
      let hd2 := hd.filter (fun p => p < r.2)
      (hd2 :: r.1, if hd2.isEmpty then 0 else hd2.foldl max 0)

/-- `ParsedPath._get_token_positions` (positions plus the error set on
break; the pruning runs only when the loop completed without break). -/
def getTokenPositions (lowerPath : List Char) (staticTokens : List (List Char)) :
    List (List Nat) × Option ParseMsg :=
  let r := gtpLoop lowerPath staticTokens 0
  if r.2.2 then (r.1, r.2.1)
  else ((pruneTokenPositions r.1 lowerPath.length).1, r.2.1)

/-- `ParsedPath.__find_possible_key_values_recursive` (fuel: the
recursion consumes one key per level, so the key list's length
suffices). -/
def findRecF (skipKeys : List (List Char)) (path : List Char) :
    Nat → List TemplateKey → Nat → List (List Char) → List (List Nat) →
    AList (List Char) → List ResolvedValue
  | 0, _, _, _, _, _ => []
  | _ + 1, [], _, _, _, _ => []
  | fuel + 1, key :: keysRest, keyPosition, tokens, tokenPositions, keyValues =>
      let token := tokens.head?.getD []
      let tokensRest := tokens.drop 1
      let positions := tokenPositions.head?.getD [path.length]
      let tokenPositionsRest := tokenPositions.drop 1
      let keyValue := AList.lookup (α := List Char) key.name keyValues
      positions.filterMap (fun tokenPosition =>
        if tokenPosition ≤ keyPosition then none
        else if (match key.length with
                 | some len => decide (tokenPosition - keyPosition < len)
                 | none => false) then none
        else
          let possibleValueStr := slice path keyPosition tokenPosition
          let conv : Option PValue :=
            if skipKeys.contains key.name then some (PValue.pstr possibleValueStr)
            else if containsSub ['/'] possibleValueStr then none
            else if (match keyValue with
                     | some kv => kv != [] && possibleValueStr != kv
                     | none => false) then none
            else match key.valueFromStr possibleValueStr with
                 | Except.ok v => some (PValue.pval v)
                 | Except.error _ => none
          match conv with
          | none => none
          | some possibleValue =>
              if keysRest.isEmpty then
                if ¬ tokensRest.isEmpty then
                  some (ResolvedValue.mk (some possibleValue) [] false none)
                else if tokenPosition + token.length ≠ path.length then
                  some (ResolvedValue.mk (some possibleValue) [] false none)
                else
                  some (ResolvedValue.mk (some possibleValue) [] true none)
              else
                if path.length ≤ tokenPosition + token.length then
                  some (ResolvedValue.mk (some possibleValue) [] true none)
                else
                  let downstream := findRecF skipKeys path fuel keysRest
                    (tokenPosition + token.length) tokensRest tokenPositionsRest
                    (AList.insert key.name possibleValueStr keyValues)
                  some (ResolvedValue.mk (some possibleValue) downstream
                    (downstream.any ResolvedValue.fullyResolved)
                    ((downstream.filterMap ResolvedValue.lastErrorRV).getLast?)))

def findRec (skipKeys : List (List Char)) (path : List Char)
    (keys : List TemplateKey) (keyPosition : Nat) (tokens : List (List Char))
    (tokenPositions : List (List Nat)) (keyValues : AList (List Char)) :
    List ResolvedValue :=
  findRecF skipKeys path keys.length keys keyPosition tokens tokenPositions keyValues

/-- A candidate value as joined into the ambiguity message: joining is
only defined for Python strings (`TypeError` otherwise, and for the
impossible `None`). -/
def pvalStr : Option PValue → Except PyErr (List Char)
  | some (PValue.pstr s) => Except.ok s
  | some (PValue.pval (TVal.vstr s)) => Except.ok s
  | some (PValue.pval (TVal.vint _)) => Except.error PyErr.typeErr
  | none => Except.error PyErr.typeErr

/-- `"', '".join(ambiguous_values)`, kept as the list of joined
strings. -/
def joinVals : List (Option PValue) → Except PyErr (List (List Char))
  | [] => Except.ok []
  | v :: rest => do
      let s ← pvalStr v
      let r ← joinVals rest
      pure (s :: r)

/-- `value in list` / `list.index(value)` over candidate values. -/
def listIndexOfValue (x : Option PValue) : List (Option PValue) → Option Nat
  | [] => none
  | v :: rest =>
      if v = x then some 0 else (listIndexOfValue x rest).map (· + 1)

/-- The `self.fields[key.name] = key_value` tail of the resolution
loop. -/
def addField (skipKeys : List (List Char)) (fields : AList PValue)
    (key : TemplateKey) (v : Option PValue) : AList PValue :=
  match v with
  | some pv =>
      if skipKeys.contains key.name then fields
      else AList.insert key.name pv fields
  | none => fields

/-- The per-key resolution loop of `ParsedPath.parse_path` (`for key in
self.ordered_keys`).  Returns the final `(fields, last_error)` pair, or
the `TypeError` escaping from joining non-string ambiguous values. -/
def resolveLoop (skipKeys : List (List Char)) :
    List TemplateKey → List ResolvedValue → AList PValue → Option ParseMsg →
    Except PyErr (Option (AList PValue) × Option ParseMsg)
  | [], _, fields, lastErr => Except.ok (some fields, lastErr)
  | _ :: _, [], fields, lastErr => Except.ok (some fields, lastErr)
  | key :: keysRest, [rv], fields, lastErr =>
      if rv.fullyResolved then
        resolveLoop skipKeys keysRest rv.downstream
          (addField skipKeys fields key rv.value) lastErr
      else
        Except.ok (none, rv.lastErrorRV)
  | key :: keysRest, rv1 :: rv2 :: rvRest, fields, lastErr =>
      let possibleValues := rv1 :: rv2 :: rvRest
      let resolved := possibleValues.filter ResolvedValue.fullyResolved
      if resolved.length = 1 then
        let rv := resolved.head?.getD (ResolvedValue.mk none [] false none)
        resolveLoop skipKeys keysRest rv.downstream
          (addField skipKeys fields key rv.value) lastErr
      else
        let ambiguousResults :=
          if 1 < resolved.length then resolved else possibleValues
        let ambiguousValues := ambiguousResults.map ResolvedValue.value
        let rescue :=
          match AList.lookup (α := PValue) key.name fields with
          | some kv => (listIndexOfValue (some kv) ambiguousValues).map (kv, ·)
          | none => none
        match rescue with
        | some (kv, idx) =>
            let chosen := (ambiguousResults.drop idx).head?.getD
              (ResolvedValue.mk none [] false none)
            resolveLoop skipKeys keysRest chosen.downstream
              (addField skipKeys fields key (some kv)) lastErr
        | none => do
            let vals ← joinVals ambiguousValues
            Except.ok (none, some (ParseMsg.ambiguousValues key.name vals))

/-- `ParsedPath.parse_path`, given the constructed state components. -/
def parsePathCompute (skipKeys : List (List Char)) (inputPath lowerPath : List Char)
    (staticTokens : List (List Char)) (parts : List Part) :
    Except PyErr (Option (AList PValue) × Option ParseMsg) :=
  let ordKeys := orderedKeysOf parts
  if ordKeys.isEmpty then Except.ok (emptyOrderedKeysFields lowerPath staticTokens)
  else
    let tp := getTokenPositions lowerPath staticTokens
    let tokenPositions := tp.1
    if tokenPositions.isEmpty || (tokenPositions.getLast?.getD []).isEmpty then
      Except.ok (none, tp.2)
    else
      let numKeys := ordKeys.length
      let numTokens := staticTokens.length
      let firstIsKey := match parts with | Part.key _ :: _ => true | _ => false
      let tFamily :=
        if !firstIsKey && decide (numTokens - 1 ≤ numKeys) then
          findRec skipKeys inputPath ordKeys (staticTokens.head?.getD []).length
            (staticTokens.drop 1) (tokenPositions.drop 1) []
        else []
      let firstPositions :=
        if !firstIsKey then (tokenPositions.head?.getD []).drop 1
        else tokenPositions.head?.getD []
      let kFamily :=
        if !firstPositions.isEmpty && decide (numTokens ≤ numKeys) then
          findRec skipKeys inputPath ordKeys 0 staticTokens
            (firstPositions :: tokenPositions.drop 1) []
        else []
      let possibleValues := tFamily ++ kFamily
      if possibleValues.isEmpty then
        Except.ok (none, some (tp.2.getD (ParseMsg.noFit inputPath)))
      else
        resolveLoop skipKeys ordKeys possibleValues [] tp.2

/-- The state built by `ParsedPath.__init__`. -/
structure ParsedPathState where
  inputPath : List Char
  namedKeys : AList TemplateKey
  definition : List Char
  staticTokens : List (List Char)
  skipKeys : List (List Char)
  lowerPath : List Char
  parts : List Part
  fields : Option (AList PValue)
  lastError : Option ParseMsg
  ioTrace : List String

instance : Inhabited ParsedPathState :=
  ⟨{ inputPath := [], namedKeys := [], definition := [], staticTokens := [],
     skipKeys := [], lowerPath := [], parts := [], fields := none,
     lastError := none, ioTrace := [] }⟩

/-- `ParsedPath.__init__`: normalise the input, read `named_keys`,
`expanded` and `static_tokens` from the variation info dict (a missing
entry is a `KeyError`), attach the file-handler (a filesystem open,
recorded in `ioTrace`), build `parts` and run `parse_path`. -/
def parsedPathInit (inputPathRaw : List Char) (varInfo : List (String × VarVal))
    (skipKeys : List (List Char)) : Except PyErr ParsedPathState :=
  match pyDictLookup dkNamedKeys varInfo with
  | none => Except.error (PyErr.keyErr dkNamedKeys)
  | some (VarVal.keyListV _) => Except.error PyErr.typeErr
  | some (VarVal.strV _) => Except.error PyErr.typeErr
  | some (VarVal.tokensV _) => Except.error PyErr.typeErr
  | some (VarVal.keysV namedKeys) =>
    match pyDictLookup dkExpanded varInfo with
    | none => Except.error (PyErr.keyErr dkExpanded)
    | some (VarVal.keysV _) => Except.error PyErr.typeErr
    | some (VarVal.keyListV _) => Except.error PyErr.typeErr
    | some (VarVal.tokensV _) => Except.error PyErr.typeErr
    | some (VarVal.strV definition) =>
      match pyDictLookup dkStaticTokens varInfo with
      | none => Except.error (PyErr.keyErr dkStaticTokens)
      | some (VarVal.keysV _) => Except.error PyErr.typeErr
      | some (VarVal.keyListV _) => Except.error PyErr.typeErr
      | some (VarVal.strV _) => Except.error PyErr.typeErr
      | some (VarVal.tokensV staticTokensRaw) =>
        match parsePathCompute skipKeys (normpath inputPathRaw)
            (lowerStr (normpath inputPathRaw)) (staticTokensRaw.map lowerStr)
            (createDefinitionParts namedKeys definition) with
        | Except.error e => Except.error e
        | Except.ok r =>
            Except.ok { inputPath := normpath inputPathRaw
                        namedKeys := namedKeys
                        definition := definition
                        staticTokens := staticTokensRaw.map lowerStr
                        skipKeys := skipKeys
                        lowerPath := lowerStr (normpath inputPathRaw)
                        parts := createDefinitionParts namedKeys definition
                        fields := r.1
                        lastError := r.2
                        ioTrace := [parserLogPath] }

/-- The variation loop of `Template.get_fields`, carrying the last
`ParsedPath` for the error message. -/
def getFieldsLoop (inputPath : List Char) (skipKeys : List (List Char)) :
    List (List Char × TemplateVarInfo) → Option ParsedPathState →
    Except PyErr (Option (AList PValue) × Option ParsedPathState)
  | [], lastPath => Except.ok (none, lastPath)
  | v :: rest, _ => do
      let st ← parsedPathInit inputPath v.2.toPyDict skipKeys
      match st.fields with
      | some f => Except.ok (some f, some st)
      | none => getFieldsLoop inputPath skipKeys rest (some st)

/-- `Template.get_fields`: try each variation; if none resolves, raise
`TankError` from the last parser's `last_error` (with no variation at
all, `path` stays `None` and `path.last_error` is an
`AttributeError`). -/
def getFields (T : Template) (inputPath : List Char) (skipKeys : List (List Char)) :
    Except PyErr (AList PValue) := do
  let r ← getFieldsLoop inputPath skipKeys T.variations none
  match r with
  | (some f, _) => Except.ok f
  | (none, some st) => Except.error (PyErr.tankParseErr T.name st.lastError)
  | (none, none) => Except.error (PyErr.attrErr dkLastError)

/-! ## Shared helpers for the claim theorems -/

/-- Extract the success value of an `Except` (used to name concretely
computed states; the error case never occurs at the call sites). -/
def exOk {α β : Type} [Inhabited β] : Except α β → β
  | Except.ok b => b
  | Except.error _ => default

/-- Success projection of an `Except`. -/
def exToOption {α β : Type} : Except α β → Option β
  | Except.ok b => some b
  | Except.error _ => none

/-- A plain pass-through string key (the `StrKey` of the key-type
contract: `value_from_str` accepts the substring as the value,
`str_from_value` renders a string value verbatim). -/
def mkStrKey (n : List Char) (i : Nat) : TemplateKey :=
  { kid := i, name := n, length := none, default := none,
    valueFromStr := fun s => Except.ok (TVal.vstr s),
    strFromValue := fun v =>
      match v with
      | some (TVal.vstr s) => Except.ok s
      | _ => Except.error [] }

/-- `named_keys` is never a key of the dicts `Template.__init__`
stores. -/
theorem toPyDict_no_namedKeys (v : TemplateVarInfo) :
    pyDictLookup dkNamedKeys v.toPyDict = none := by
  simp only [TemplateVarInfo.toPyDict, pyDictLookup]
  rw [if_neg (by decide), if_neg (by decide), if_neg (by decide),
      if_neg (by decide), if_neg (by decide)]

/-- `ParsedPath.__init__` raises `KeyError('named_keys')` whenever the
variation info dict lacks that entry. -/
theorem parsedPathInit_keyError (input : List Char)
    (varInfo : List (String × VarVal)) (skip : List (List Char))
    (h : pyDictLookup dkNamedKeys varInfo = none) :
    parsedPathInit input varInfo skip = Except.error (PyErr.keyErr dkNamedKeys) := by
  unfold parsedPathInit
  rw [h]

theorem definitionVariationsStep_ne_nil (defs : List (List Char)) (token : List Char)
    (hne : defs ≠ []) (res : List (List Char))
    (h : definitionVariationsStep defs token = Except.ok res) : res ≠ [] := by
  unfold definitionVariationsStep at h
  split_ifs at h
  all_goals cases h
  all_goals
    first
      | exact hne
      | (intro hc
         rcases List.append_eq_nil.mp hc with ⟨-, hmap⟩
         exact hne (List.map_eq_nil_iff.mp hmap))

theorem foldlM_variations_ne_nil (tokens : List (List Char)) :
    ∀ (defs res : List (List Char)), defs ≠ [] →
    tokens.foldlM definitionVariationsStep defs = Except.ok res → res ≠ [] := by
  induction tokens with
  | nil =>
      intro defs res hne h
      simp only [List.foldlM_nil] at h
      cases h; exact hne
  | cons t rest ih =>
      intro defs res hne h
      simp only [List.foldlM_cons] at h
      rcases hstep : definitionVariationsStep defs t with e | defs2 <;> rw [hstep] at h
      · cases h
      · exact ih defs2 res (definitionVariationsStep_ne_nil defs t hne defs2 hstep) h

theorem insertByLenDesc_ne_nil (x : List Char) (l : List (List Char)) :
    insertByLenDesc x l ≠ [] := by
  cases l with
  | nil => simp [insertByLenDesc]
  | cons y rest =>
      simp only [insertByLenDesc]
      split <;> simp

theorem sortByLenDesc_ne_nil (l : List (List Char)) (hne : l ≠ []) :
    sortByLenDesc l ≠ [] := by
  unfold sortByLenDesc
  rcases l with _ | ⟨x, rest⟩
  · exact absurd rfl hne
  · rw [List.foldl_cons]
    have hgen : ∀ (r acc : List (List Char)), acc ≠ [] →
        r.foldl (fun acc2 y => insertByLenDesc y acc2) acc ≠ [] := by
      intro r
      induction r with
      | nil => intro acc hacc; simpa using hacc
      | cons y rr ihr =>
          intro acc hacc
          rw [List.foldl_cons]
          exact ihr _ (insertByLenDesc_ne_nil y acc)
    exact hgen rest _ (insertByLenDesc_ne_nil x [])

theorem definitionVariations_ne_nil (d : List Char) (res : List (List Char))
    (h : definitionVariations d = Except.ok res) : res ≠ [] := by
  simp only [definitionVariations, bind, Except.bind] at h
  rcases hfold : (splitBracketTokens d).foldlM definitionVariationsStep [[]]
    with e | defs <;> rw [hfold] at h
  · cases h
  · simp only [pure, Except.pure] at h
    cases h
    exact sortByLenDesc_ne_nil defs
      (foldlM_variations_ne_nil (splitBracketTokens d) [[]] defs (by simp) hfold)

theorem aListInsert_ne_nil {α : Type} (k : List Char) (v : α) (l : AList α) :
    AList.insert k v l ≠ [] := by
  cases l with
  | nil => simp [AList.insert]
  | cons e rest =>
      rcases e with ⟨k2, v2⟩
      simp only [AList.insert]
      split <;> simp

theorem variationsFold_ne_nil (keys : AList TemplateKey) (nm : Option (List Char))
    (pre : List Char) (names : List (List Char)) :
    ∀ (acc res : List (List Char × TemplateVarInfo)),
    (acc ≠ [] ∨ names ≠ []) →
    variationsFold keys nm pre names acc = Except.ok res → res ≠ [] := by
  induction names with
  | nil =>
      intro acc res hne h
      simp only [variationsFold] at h
      cases h
      rcases hne with hne | hne
      · exact hne
      · exact absurd rfl hne
  | cons n rest ih =>
      intro acc res hne h
      simp only [variationsFold] at h
      rcases hmk : mkVarInfo keys nm pre n with e | info <;> rw [hmk] at h
      · cases h
      · exact ih _ res (Or.inl (aListInsert_ne_nil n info acc)) h

/-- A constructed template has at least one variation. -/
theorem mkTemplate_variations_ne_nil (d : List Char) (keys : AList TemplateKey)
    (nm : Option (List Char)) (pre : List Char) (T : Template)
    (h : mkTemplate d keys nm pre = Except.ok T) : T.variations ≠ [] := by
  unfold mkTemplate at h
  rcases hv : definitionVariations d with e | varNames <;> rw [hv] at h
  · cases h
  · rcases hf : variationsFold keys nm pre varNames [] with e | vars <;>
      simp only [bind, Except.bind, hf, pure, Except.pure] at h
    · cases h
    · have hT := Except.ok.inj h
      rw [← hT]
      exact variationsFold_ne_nil keys nm pre varNames [] vars
        (Or.inr (definitionVariations_ne_nil d varNames hv)) hf

/-- `get_fields` dies with `KeyError('named_keys')` on the first
variation of any constructed template: the dict stored by
`Template.__init__` and the dict read by `ParsedPath.__init__` disagree
about the entry names. -/
theorem getFields_keyError (d : List Char) (keys : AList TemplateKey)
    (nm : Option (List Char)) (pre : List Char) (T : Template)
    (input : List Char) (skip : List (List Char))
    (h : mkTemplate d keys nm pre = Except.ok T) :
    getFields T input skip = Except.error (PyErr.keyErr dkNamedKeys) := by
  have hne := mkTemplate_variations_ne_nil d keys nm pre T h
  unfold getFields
  rcases hvars : T.variations with _ | ⟨v, rest⟩
  · exact absurd hvars hne
  · simp only [getFieldsLoop]
    rw [parsedPathInit_keyError input v.2.toPyDict skip (toPyDict_no_namedKeys v.2)]
    rfl

/-! ## Claim C1: round-trip parse ∘ apply -/

def c1Foo : List Char := (r"foo").data
def c1Bar : List Char := (r"bar").data
def c1Def : List Char := (r"{foo}").data
def c1Table : AList TemplateKey := [(c1Foo, mkStrKey c1Foo 1)]
def c1T : Template := exOk (mkTemplate c1Def c1Table none [])
def c1Fields : Fields := [(c1Foo, some (TVal.vstr c1Bar))]

/-- C1 (counterexample): for the template `{foo}` with the plain string
key `foo` and the mapping `{foo: "bar"}` — which supplies exactly the
variation's keys with a round-trippable value — `apply_fields` renders
`"bar"`, but `get_fields` of that output raises `KeyError('named_keys')`
instead of returning the mapping, so
`T.get_fields(T.apply_fields(M)) = M` fails. -/
theorem claim_C1_counterexample :
    mkTemplate c1Def c1Table none [] = Except.ok c1T ∧
    applyFields c1T c1Fields = Except.ok c1Bar ∧
    getFields c1T c1Bar [] = Except.error (PyErr.keyErr dkNamedKeys) ∧
    getFields c1T c1Bar [] ≠ Except.ok [(c1Foo, PValue.pval (TVal.vstr c1Bar))] := by
  refine ⟨rfl, rfl, rfl, ?_⟩
  intro hc
  cases hc

/-- C1 (amended): the round-trip `T.get_fields(T.apply_fields(M))`
never returns `M`: for every constructed template and every input,
`get_fields` raises `KeyError('named_keys')`, because
`Template.__init__` stores the per-variation dict under the entries
`keys`/`definition`/… while `ParsedPath.__init__` reads
`var_info['named_keys']` and `var_info['expanded']`. -/
theorem claim_C1_roundtrip (d : List Char) (keys : AList TemplateKey)
    (nm : Option (List Char)) (pre : List Char) (T : Template)
    (input : List Char) (skip : List (List Char))
    (h : mkTemplate d keys nm pre = Except.ok T) :
    getFields T input skip = Except.error (PyErr.keyErr dkNamedKeys) :=
  getFields_keyError d keys nm pre T input skip h

/-- C1 witness: the amended theorem applied at the concrete template
`{foo}` and the rendered output `"bar"`. -/
theorem claim_C1_roundtrip_witness :
    getFields c1T c1Bar [] = Except.error (PyErr.keyErr dkNamedKeys) :=
  claim_C1_roundtrip c1Def c1Table none [] c1T c1Bar [] rfl

/-! ## Claim C2: `get_fields` tries variations longest-first -/

def c2Baz : List Char := (r"baz").data
def c2Qux : List Char := (r"qux").data
def c2Def : List Char := (r"{baz}").data
def c2Table : AList TemplateKey := [(c2Baz, mkStrKey c2Baz 1)]
def c2T : Template := exOk (mkTemplate c2Def c2Table none [])

/-- C2: `get_fields` never reaches the longest-first parsing loop
described by the claim: on the very first variation,
`ParsedPath.__init__` subscripts the variation dict with
`'named_keys'`, an entry `Template.__init__` never stores, so every
call raises `KeyError('named_keys')` instead of returning the first
fully-resolved variation's fields (here: template `{baz}`, input
`"qux"`, which the claim says parses to `{baz: "qux"}`). -/
theorem claim_C2_getfields_crashes :
    mkTemplate c2Def c2Table none [] = Except.ok c2T ∧
    getFields c2T c2Qux [] = Except.error (PyErr.keyErr dkNamedKeys) :=
  ⟨rfl, rfl⟩

/-! ## Claim C9: parsing performs filesystem I/O -/

/-- C9: every successfully constructed `ParsedPath` records the
filesystem side effect of `ParsedPath.__init__`: the
`logging.FileHandler` opening the hard-coded log file
`/home/joseph/repos/tk-core/var/parser.log` — contradicting the spec's
"no filesystem I/O" non-goal. -/
theorem claim_C9_parse_opens_logfile (input : List Char)
    (varInfo : List (String × VarVal)) (skip : List (List Char))
    (st : ParsedPathState)
    (h : parsedPathInit input varInfo skip = Except.ok st) :
    st.ioTrace = [parserLogPath] := by
  unfold parsedPathInit at h
  split at h
  · cases h
  · cases h
  · cases h
  · cases h
  · split at h
    · cases h
    · cases h
    · cases h
    · cases h
    · split at h
      · cases h
      · cases h
      · cases h
      · cases h
      · split at h
        · cases h
        · cases h
          rfl

def c9Var : List (String × VarVal) :=
  [(dkNamedKeys, VarVal.keysV [((r"a").data, mkStrKey (r"a").data 7)]),
   (dkExpanded, VarVal.strV (r"{a}").data),
   (dkStaticTokens, VarVal.tokensV [])]

/-- C9 witness: a concrete parse (variation `{a}`, input `"x"`) whose
state records the log-file open. -/
theorem claim_C9_witness :
    (exOk (parsedPathInit (r"x").data c9Var [])).ioTrace = [parserLogPath] :=
  claim_C9_parse_opens_logfile (r"x").data c9Var []
    (exOk (parsedPathInit (r"x").data c9Var [])) rfl

/-! ## Claim C7: optional sections and the key-reference check -/

theorem hasKeyDefCheck_cons (c : Char) (s : List Char)
    (h : hasKeyDefCheck s = true) : hasKeyDefCheck (c :: s) = true := by
  cases s with
  | nil => simp [hasKeyDefCheck] at h
  | cons b r =>
      simp only [hasKeyDefCheck, Bool.or_eq_true]
      exact Or.inr h

theorem hasKeyDefCheck_run_brace (run y : List Char) (hne : run ≠ [])
    (hall : run.all isNameChar = true) :
    hasKeyDefCheck (run ++ '}' :: y) = true := by
  induction run with
  | nil => exact absurd rfl hne
  | cons a rest ih =>
      simp only [List.all_cons, Bool.and_eq_true] at hall
      cases rest with
      | nil =>
          simp [hasKeyDefCheck, hall.1]
      | cons b r2 =>
          have hr := ih (by simp) hall.2
          simp only [List.cons_append] at hr
          simp only [List.cons_append, List.append_eq, hasKeyDefCheck]
          rw [hr]
          simp

theorem hasKeyDefCheck_append_left (x s : List Char)
    (h : hasKeyDefCheck s = true) : hasKeyDefCheck (x ++ s) = true := by
  induction x with
  | nil => simpa using h
  | cons c r ih => exact hasKeyDefCheck_cons c (r ++ s) ih

/-- C7 (amended): the check `re.search("{*NAME}")` that
`_definition_variations` applies to a bracketed section is implied by —
but weaker than — containing a `{name}` key reference: every bracketed
token that contains a complete key reference passes (is not rejected
with the optional-section error); the counterexample shows the converse
fails.  -/
theorem claim_C7_optional_section_check (defs : List (List Char))
    (x run y : List Char) (hne : run ≠ []) (hall : run.all isNameChar = true) :
    definitionVariationsStep defs ('[' :: (x ++ '{' :: (run ++ '}' :: y))) ≠
      Except.error DefErr.optionalNoKey := by
  have hck : hasKeyDefCheck ('[' :: (x ++ '{' :: (run ++ '}' :: y))) = true := by
    have h1 := hasKeyDefCheck_run_brace run y hne hall
    have h2 := hasKeyDefCheck_cons '{' (run ++ '}' :: y) h1
    have h3 := hasKeyDefCheck_append_left x ('{' :: (run ++ '}' :: y)) h2
    exact hasKeyDefCheck_cons '[' (x ++ '{' :: (run ++ '}' :: y)) h3
  intro hc
  unfold definitionVariationsStep at hc
  rw [if_neg (by simp)] at hc
  rw [if_neg (by simp [hck])] at hc
  split_ifs at hc
  · exact DefErr.noConfusion (Except.error.inj hc)
  · cases hc

def c7Run : List Char := (r"bar").data
def c7Tail : List Char := (r"]").data

/-- C7 witness: the amended theorem at the concrete optional section
`[{bar}]`. -/
theorem claim_C7_witness :
    definitionVariationsStep [[]] ('[' :: ([] ++ '{' :: (c7Run ++ '}' :: c7Tail))) ≠
      Except.error DefErr.optionalNoKey :=
  claim_C7_optional_section_check [[]] [] c7Run c7Tail (by decide) (by decide)

def c7Def : List Char := (r"[a}]").data

/-- C7 (counterexample): the definition `[a}]` has one bracketed
optional section with no `{name}` key reference in it (`findKeyRefs`
finds none), yet `_definition_variations` accepts it — yielding the
variations `a}` and the empty string — and template construction
succeeds. -/
theorem claim_C7_counterexample :
    findKeyRefs c7Def = [] ∧
    definitionVariations c7Def = Except.ok [(r"a}").data, []] ∧
    (exToOption (mkTemplate c7Def [] none [])).isSome = true :=
  ⟨rfl, rfl, rfl⟩

/-! ## Claim C4: identical fully-resolved leaves are not collapsed -/

/-- The fields outcome of a resolution-loop result (`None` on failure
or on an escaping exception). -/
def successFields :
    Except PyErr (Option (AList PValue) × Option ParseMsg) → Option (AList PValue)
  | Except.ok r => r.1
  | Except.error _ => none

/-- C4 (amended): when the candidate list for the first key holds two or
more fully-resolved values, the resolution loop always fails with the
ambiguity error (the accumulated fields are empty at the first key, so
the previous-binding rescue cannot apply) — even when the candidate
values, and hence the leaves' field mappings, are identical.  Identical
leaves are not collapsed. -/
theorem claim_C4_multiple_resolved_fails (skip : List (List Char))
    (key : TemplateKey) (keysRest : List TemplateKey)
    (pv : List ResolvedValue) (le : Option ParseMsg)
    (h2 : 2 ≤ (pv.filter ResolvedValue.fullyResolved).length) :
    successFields (resolveLoop skip (key :: keysRest) pv [] le) = none := by
  have hlen : 2 ≤ pv.length := le_trans h2 (List.length_filter_le _ _)
  rcases pv with _ | ⟨a, _ | ⟨b, rest⟩⟩
  · simp at hlen
  · simp at hlen
  · simp only [resolveLoop]
    rw [if_neg (by omega)]
    have hlk : AList.lookup (α := PValue) key.name ([] : AList PValue) = none := rfl
    rw [hlk]
    rcases hj : joinVals ((if 1 < ((a :: b :: rest).filter ResolvedValue.fullyResolved).length
        then (a :: b :: rest).filter ResolvedValue.fullyResolved
        else a :: b :: rest).map ResolvedValue.value) with e | vals <;>
      simp [successFields, hj, bind, Except.bind]

def c4A : List Char := (r"a").data
def c4KeyA : TemplateKey := mkStrKey c4A 1
def c4Var : List (String × VarVal) :=
  [(dkNamedKeys, VarVal.keysV [(c4A, c4KeyA)]),
   (dkExpanded, VarVal.strV (r"v{a}").data),
   (dkStaticTokens, VarVal.tokensV [['v']])]
def c4In : List Char := (r"vvv").data
def c4St : ParsedPathState := exOk (parsedPathInit c4In c4Var [])
def c4VV : List Char := (r"vv").data

/-- C4 (counterexample): parsing `vvv` against the variation `v{a}`
(plain string key `a`) produces, across the two structural families,
two fully-resolved leaves whose field mappings are identical
(`{a: "vv"}` both) — yet the parse fails with the ambiguity error
listing `'vv', 'vv'` instead of treating them as a single result. -/
theorem claim_C4_counterexample :
    c4St.fields = none ∧
    c4St.lastError = some (ParseMsg.ambiguousValues c4A [c4VV, c4VV]) ∧
    findRec [] c4In [c4KeyA] 1 [] [] [] =
      [ResolvedValue.mk (some (PValue.pval (TVal.vstr c4VV))) [] true none] ∧
    findRec [] c4In [c4KeyA] 0 [['v']] [[1, 2]] [] =
      [ResolvedValue.mk (some (PValue.pval (TVal.vstr ['v']))) [] false none,
       ResolvedValue.mk (some (PValue.pval (TVal.vstr c4VV))) [] true none] :=
  ⟨rfl, rfl, rfl, rfl⟩

def c4PV : List ResolvedValue :=
  [ResolvedValue.mk (some (PValue.pval (TVal.vstr c4VV))) [] true none,
   ResolvedValue.mk (some (PValue.pval (TVal.vstr ['v']))) [] false none,
   ResolvedValue.mk (some (PValue.pval (TVal.vstr c4VV))) [] true none]

/-- C4 witness: the amended theorem at the concrete candidate list of
the `vvv` / `v{a}` parse (two identical fully-resolved leaves). -/
theorem claim_C4_witness :
    successFields (resolveLoop [] [c4KeyA] c4PV [] none) = none :=
  claim_C4_multiple_resolved_fails [] c4KeyA [] c4PV none (by decide)

/-! ## Claim C5: repeated keys and the conflict check -/

/-- C5 (amended): for a key that is **not** a skip key and is already
bound to the (never-empty) substring `s` on the ancestor path, every
candidate whose substring differs from `s` is skipped by the conflict
check (contributing no `ResolvedValue`; the locally formed conflict
message is discarded by the `continue`), so every value produced for
that key equals the conversion of `s` — all occurrences of a non-skip
key bind the same substring.  Skip keys bypass the check and may bind
different substrings. -/
theorem claim_C5_conflict_skip (skip : List (List Char)) (path : List Char)
    (key : TemplateKey) (keysRest : List TemplateKey) (keyPos : Nat)
    (tokens : List (List Char)) (tposs : List (List Nat))
    (kvs : AList (List Char)) (s : List Char) (rv : ResolvedValue)
    (hskip : skip.contains key.name = false)
    (hbound : AList.lookup (α := List Char) key.name kvs = some s)
    (hs : s ≠ [])
    (hmem : rv ∈ findRec skip path (key :: keysRest) keyPos tokens tposs kvs) :
    ∃ v, key.valueFromStr s = Except.ok v ∧ rv.value = some (PValue.pval v) := by
  unfold findRec at hmem
  simp only [List.length_cons] at hmem
  rw [findRecF] at hmem
  rw [hbound] at hmem
  obtain ⟨pos, hpos, hf⟩ := List.mem_filterMap.mp hmem
  clear hmem hpos
  simp only [hskip, Bool.false_eq_true, if_false] at hf
  by_cases h1 : pos ≤ keyPos
  · rw [if_pos h1] at hf
    cases hf
  · rw [if_neg h1] at hf
    by_cases h2 : (match key.length with
        | some len => decide (pos - keyPos < len)
        | none => false) = true
    · rw [if_pos h2] at hf
      cases hf
    · rw [if_neg h2] at hf
      by_cases h3 : containsSub ['/'] (slice path keyPos pos) = true
      · rw [if_pos h3] at hf
        cases hf
      · rw [if_neg h3] at hf
        by_cases h4 : ((s != []) && (slice path keyPos pos != s)) = true
        · rw [if_pos h4] at hf
          cases hf
        · rw [if_neg h4] at hf
          have hstr : slice path keyPos pos = s := by
            by_contra hne
            apply h4
            simp only [Bool.and_eq_true, bne_iff_ne, ne_eq]
            exact ⟨hs, hne⟩
          rw [hstr] at hf
          rcases hv : key.valueFromStr s with e | v <;> rw [hv] at hf
          · cases hf
          · dsimp only at hf
            split_ifs at hf <;> (cases hf; exact ⟨v, by simp [hv], rfl⟩)

def c5X : List Char := (r"x").data
def c5KeyX : TemplateKey := mkStrKey c5X 1
def c5Var : List (String × VarVal) :=
  [(dkNamedKeys, VarVal.keysV [(c5X, c5KeyX)]),
   (dkExpanded, VarVal.strV (r"{x}_{x}").data),
   (dkStaticTokens, VarVal.tokensV [['_']])]
def c5St : ParsedPathState := exOk (parsedPathInit (r"a_b").data c5Var [c5X])

/-- C5 (counterexample): in the variation `{x}_{x}` the key `x` appears
twice; with `x` a skip key, the parse of `a_b` **succeeds** (returning
the empty field dict, skip-key values being excluded) even though the
two occurrences bind the different substrings `a` and `b` — the
conflict check is bypassed for skip keys, refuting the claim's
unconditional "succeeds only when all occurrences bind the same
substring". -/
theorem claim_C5_counterexample :
    c5St.fields = some [] ∧
    findRec [c5X] (r"a_b").data [c5KeyX, c5KeyX] 0 [['_']] [[1]] [] =
      [ResolvedValue.mk (some (PValue.pstr ['a']))
        [ResolvedValue.mk (some (PValue.pstr ['b'])) [] true none] true none] :=
  ⟨rfl, rfl⟩

def c5Kvs : AList (List Char) := [(c5X, ['a'])]
def c5RV : ResolvedValue :=
  ResolvedValue.mk (some (PValue.pval (TVal.vstr ['a']))) [] true none

/-- C5 witness: the amended theorem at the second occurrence of the
non-skip key `x`, already bound to `"a"`, while parsing `a_a`: the only
produced value is the conversion of `"a"`. -/
theorem claim_C5_witness :
    ∃ v, c5KeyX.valueFromStr ['a'] = Except.ok v ∧
      c5RV.value = some (PValue.pval v) :=
  claim_C5_conflict_skip [] (r"a_a").data c5KeyX [] 2 [] [] c5Kvs ['a'] c5RV
    rfl rfl (by decide) (by rw [show findRec [] (r"a_a").data [c5KeyX] 2 [] [] c5Kvs = [c5RV] from rfl]; exact List.mem_singleton.mpr rfl)


/-! ## Claim C6: leading literals and the first static token -/

def c6Ver : List Char := (r"ver").data
def c6KeyVer : TemplateKey := mkStrKey c6Ver 1
def c6Var : List (String × VarVal) :=
  [(dkNamedKeys, VarVal.keysV [(c6Ver, c6KeyVer)]),
   (dkExpanded, VarVal.strV (r"v{ver}").data),
   (dkStaticTokens, VarVal.tokensV [['v']])]
def c6In : List Char := (r"xv3").data
def c6St : ParsedPathState := exOk (parsedPathInit c6In c6Var [])
def c6Parts : List Part := [Part.lit ['v'], Part.key c6KeyVer]
def c6Out : AList PValue := [(c6Ver, PValue.pval (TVal.vstr (r"v3").data))]

/-- C6 (counterexample): the variation `v{ver}` begins with the literal
`v`, which is **not** a prefix of the input `xv3`; yet the parse
succeeds, binding `ver` to `v3` (the literal is matched at its first
occurrence anywhere in the input, not consumed as a prefix). -/
theorem claim_C6_counterexample :
    c6St.parts = c6Parts ∧
    List.isPrefixOf ['v'] c6St.lowerPath = false ∧
    c6St.fields = some c6Out :=
  ⟨rfl, rfl, rfl⟩

/-- C6 (amended): what a successful parse of a variation with keys
actually requires of the static tokens is only **occurrence**: if
`parse_path` returns a field dict, the static-token list is non-empty
and its first token occurs somewhere in the lowercased input (the
positions list would otherwise be empty and the parse would return
`None` with a token-not-found error).  A leading literal need **not**
be a prefix of the input. -/
theorem claim_C6_first_static_token_occurs (skip : List (List Char))
    (inputPath lowerPath : List Char) (staticTokens : List (List Char))
    (parts : List Part) (f : AList PValue) (le : Option ParseMsg)
    (hok : parsePathCompute skip inputPath lowerPath staticTokens parts
      = Except.ok (some f, le))
    (hkeys : orderedKeysOf parts ≠ []) :
    staticTokens ≠ [] ∧ findOccurrences (staticTokens.head?.getD []) lowerPath ≠ [] := by
  simp only [parsePathCompute] at hok
  rw [if_neg (by intro hc; exact hkeys (List.isEmpty_iff.mp hc))] at hok
  by_cases hguard : ((getTokenPositions lowerPath staticTokens).1.isEmpty
      || ((getTokenPositions lowerPath staticTokens).1.getLast?.getD []).isEmpty) = true
  · rw [if_pos hguard] at hok
    simp at hok
  · constructor
    · intro hst
      apply hguard
      subst hst
      rfl
    · intro hocc
      apply hguard
      rcases hts : staticTokens with _ | ⟨t0, ts⟩
      · rfl
      · subst hts
        simp only [List.head?_cons, Option.getD_some] at hocc
        have hgtp : gtpLoop lowerPath (t0 :: ts) 0 =
            ([], some (ParseMsg.tokenNotFound lowerPath 0 t0), true) := by
          simp [gtpLoop, hocc]
        simp [getTokenPositions, hgtp]

/-- C6 witness: the amended theorem at the `xv3` / `v{ver}` parse. -/
theorem claim_C6_witness :
    [['v']] ≠ ([] : List (List Char)) ∧
    findOccurrences (([['v']] : List (List Char)).head?.getD []) c6In ≠ [] :=
  claim_C6_first_static_token_occurs [] c6In c6In [['v']] c6Parts c6Out none
    rfl (List.cons_ne_nil _ _)

/-! ## Claim C3: apply_fields picks the first fitting variation -/

theorem insertByLenDesc_mem {z x : List Char} {l : List (List Char)}
    (h : z ∈ insertByLenDesc x l) : z = x ∨ z ∈ l := by
  induction l with
  | nil => simpa [insertByLenDesc] using h
  | cons y rest ih =>
      rw [insertByLenDesc] at h
      by_cases hc : y.length < x.length
      · rw [if_pos hc] at h
        rcases List.mem_cons.mp h with h | h
        · exact Or.inl h
        · exact Or.inr h
      · rw [if_neg hc] at h
        rcases List.mem_cons.mp h with h | h
        · exact Or.inr (h ▸ List.mem_cons_self y rest)
        · rcases ih h with h2 | h2
          · exact Or.inl h2
          · exact Or.inr (List.mem_cons_of_mem y h2)

theorem insertByLenDesc_pairwise {x : List Char} {l : List (List Char)}
    (h : l.Pairwise (fun a b => b.length ≤ a.length)) :
    (insertByLenDesc x l).Pairwise (fun a b => b.length ≤ a.length) := by
  induction l with
  | nil => simp [insertByLenDesc]
  | cons y rest ih =>
      rw [insertByLenDesc]
      rcases List.pairwise_cons.mp h with ⟨hy, hrest⟩
      by_cases hc : y.length < x.length
      · rw [if_pos hc]
        refine List.pairwise_cons.mpr ⟨?_, h⟩
        intro z hz
        rcases List.mem_cons.mp hz with rfl | hz2
        · exact Nat.le_of_lt hc
        · exact le_trans (hy z hz2) (Nat.le_of_lt hc)
      · rw [if_neg hc]
        refine List.pairwise_cons.mpr ⟨?_, ih hrest⟩
        intro z hz
        rcases insertByLenDesc_mem hz with rfl | hz2
        · exact Nat.le_of_not_lt hc
        · exact hy z hz2

theorem sortByLenDesc_pairwise (l : List (List Char)) :
    (sortByLenDesc l).Pairwise (fun a b => b.length ≤ a.length) := by
  unfold sortByLenDesc
  have hgen : ∀ (r acc : List (List Char)),
      acc.Pairwise (fun a b => b.length ≤ a.length) →
      (r.foldl (fun acc2 y => insertByLenDesc y acc2) acc).Pairwise
        (fun a b => b.length ≤ a.length) := by
    intro r
    induction r with
    | nil => intro acc hacc; simpa using hacc
    | cons y rr ihr =>
        intro acc hacc
        rw [List.foldl_cons]
        exact ihr _ (insertByLenDesc_pairwise hacc)
  exact hgen l [] (by simp)

theorem definitionVariations_pairwise (d : List Char) (res : List (List Char))
    (h : definitionVariations d = Except.ok res) :
    res.Pairwise (fun a b => b.length ≤ a.length) := by
  simp only [definitionVariations, bind, Except.bind] at h
  rcases hfold : (splitBracketTokens d).foldlM definitionVariationsStep [[]]
    with e | defs <;> rw [hfold] at h
  · cases h
  · simp only [pure, Except.pure] at h
    cases h
    exact sortByLenDesc_pairwise defs

theorem aListInsert_mem {α : Type} {z : List Char × α} {k : List Char} {v : α}
    {l : List (List Char × α)}
    (h : List.Mem z (AList.insert k v l)) :
    z = (k, v) ∨ z ∈ l := by
  induction l with
  | nil =>
      cases h with
      | head => exact Or.inl rfl
      | tail _ h2 => cases h2
  | cons y rest ih =>
      rcases y with ⟨k2, v2⟩
      simp only [AList.insert] at h
      by_cases hc : k = k2
      · rw [if_pos hc] at h
        rcases List.mem_cons.mp h with h | h
        · exact Or.inl h
        · exact Or.inr (List.mem_cons_of_mem _ h)
      · rw [if_neg hc] at h
        rcases List.mem_cons.mp h with h | h
        · exact Or.inr (h ▸ List.mem_cons_self _ rest)
        · rcases ih h with h2 | h2
          · exact Or.inl h2
          · exact Or.inr (List.mem_cons_of_mem _ h2)

theorem aListInsert_pairwise_len {k : List Char} {v : TemplateVarInfo}
    {l : List (List Char × TemplateVarInfo)}
    (h : l.Pairwise (fun a b => b.1.length ≤ a.1.length))
    (hk : ∀ p ∈ l, k.length ≤ p.1.length) :
    (AList.insert k v l).Pairwise (fun a b => b.1.length ≤ a.1.length) := by
  induction l with
  | nil => simp [AList.insert]
  | cons y rest ih =>
      rcases y with ⟨k2, v2⟩
      simp only [AList.insert]
      rcases List.pairwise_cons.mp h with ⟨hy, hrest⟩
      by_cases hc : k = k2
      · rw [if_pos hc]
        refine List.pairwise_cons.mpr ⟨?_, hrest⟩
        intro z hz
        exact hc ▸ hy z hz
      · rw [if_neg hc]
        refine List.pairwise_cons.mpr
          ⟨?_, ih hrest (fun p hp => hk p (List.mem_cons_of_mem _ hp))⟩
        intro z hz
        rcases aListInsert_mem hz with rfl | hz2
        · exact hk (k2, v2) (List.mem_cons_self _ rest)
        · exact hy z hz2

theorem variationsFold_pairwise (keys : AList TemplateKey) (nm : Option (List Char))
    (pre : List Char) (names : List (List Char)) :
    ∀ (acc res : List (List Char × TemplateVarInfo)),
    names.Pairwise (fun a b => b.length ≤ a.length) →
    acc.Pairwise (fun a b => b.1.length ≤ a.1.length) →
    (∀ p ∈ acc, ∀ n ∈ names, n.length ≤ p.1.length) →
    variationsFold keys nm pre names acc = Except.ok res →
    res.Pairwise (fun a b => b.1.length ≤ a.1.length) := by
  induction names with
  | nil =>
      intro acc res _ hacc _ h
      simp only [variationsFold] at h
      cases h
      exact hacc
  | cons n rest ih =>
      intro acc res hnames hacc hbound h
      simp only [variationsFold] at h
      rcases hmk : mkVarInfo keys nm pre n with e | info <;> rw [hmk] at h
      · cases h
      · rcases List.pairwise_cons.mp hnames with ⟨hn, hrest⟩
        refine ih _ res hrest
          (aListInsert_pairwise_len hacc
            (fun p hp => hbound p hp n (List.mem_cons_self n rest)))
          ?_ h
        intro p hp m hm
        rcases aListInsert_mem hp with rfl | hp2
        · exact hn m hm
        · exact hbound p hp2 m (List.mem_cons_of_mem n hm)

/-- The selection loop of `_apply_fields`, characterised by `find?`:
the first variation with no missing required keys is chosen; when none
fits, the reported missing list is that of the **last** variation (the
Python loop variable leaking out of the loop). -/
theorem applyLoop_eq (fields : Fields) :
    ∀ (vs : List (List Char × TemplateVarInfo)) (lm : List (List Char)),
    applyLoop fields vs lm =
      match vs.find? (fun v => (missingKeysAux fields v.2.keys true).isEmpty) with
      | some v => (some v.2, missingKeysAux fields v.2.keys true)
      | none =>
          (none, (vs.getLast?.map (fun v => missingKeysAux fields v.2.keys true)).getD lm) := by
  intro vs
  induction vs with
  | nil => intro lm; rfl
  | cons v rest ih =>
      intro lm
      rw [applyLoop, List.find?_cons]
      by_cases hm : missingKeysAux fields v.2.keys true = []
      · rw [if_pos hm]
        rw [show ((missingKeysAux fields v.2.keys true).isEmpty : Bool) = true by
          simp [hm]]
      · rw [if_neg hm]
        rw [show ((missingKeysAux fields v.2.keys true).isEmpty : Bool) = false by
          simp [List.isEmpty_iff, hm]]
        rw [ih]
        rcases rest with _ | ⟨w, ws⟩
        · simp [List.find?]
        · rw [List.getLast?_cons_cons]
          rcases hfind2 : List.find?
              (fun u => (missingKeysAux fields u.2.keys true).isEmpty) (w :: ws)
            with _ | u
          · rcases hl : (w :: ws).getLast? with _ | z
            · exact absurd (List.getLast?_eq_none_iff.mp hl) (List.cons_ne_nil w ws)
            · simp
          · rfl

/-- Every name reported missing by `_missing_keys` with `skip_defaults`
comes from a key whose `default` is `None` and whose value in `fields`
is absent or `None`: a key with a default value is never treated as
missing. -/
theorem missingKeysAux_defaults (fields : Fields) (keys : AList TemplateKey)
    (n : List Char) (hn : n ∈ missingKeysAux fields keys true) :
    (∃ k ∈ AList.valueList keys, k.name = n ∧ k.default = none) ∧
    pyGet fields n = none := by
  simp only [missingKeysAux, List.mem_filter] at hn
  rcases hn with ⟨hreq, hget⟩
  constructor
  · simp only [requiredNames] at hreq
    rw [if_pos trivial] at hreq
    rcases List.mem_map.mp hreq with ⟨k, hk, hkn⟩
    rcases List.mem_filter.mp hk with ⟨hkmem, hkdef⟩
    exact ⟨k, hkmem, hkn, by simpa using hkdef⟩
  · simpa [Option.isNone_iff_eq_none] using hget

/-- C3: for every constructed template, the variations are ordered
longest definition first, and `_apply_fields` (with `skip_defaults`)
selects the **first** variation whose required keys — those without a
default, a key with a default value never being treated as missing
(`missingKeysAux_defaults`) — are all present, stringifies that
variation's key values and `%`-substitutes them into its cleaned
definition; when no variation fits it fails with the missing-field
names of the last (shortest) variation. -/
theorem claim_C3_apply_first_fit (d : List Char) (keys : AList TemplateKey)
    (nm : Option (List Char)) (pre : List Char) (T : Template) (fields : Fields)
    (hT : mkTemplate d keys nm pre = Except.ok T) :
    T.variations.Pairwise (fun a b => b.1.length ≤ a.1.length) ∧
    (∀ v ∈ T.variations, ∀ n ∈ missingKeysAux fields v.2.keys true,
      (∃ k ∈ AList.valueList v.2.keys, k.name = n ∧ k.default = none) ∧
      pyGet fields n = none) ∧
    (match T.variations.find?
        (fun v => (missingKeysAux fields v.2.keys true).isEmpty) with
     | some v =>
         applyFields T fields =
           (processedFields fields v.2.keys).bind
             (fun pf => pyFormatMap pf v.2.cleaned_definition)
     | none =>
         applyFields T fields =
           Except.error (ApplyErr.missingFields
             ((T.variations.getLast?.map
               (fun v => missingKeysAux fields v.2.keys true)).getD []))) := by
  have hne := mkTemplate_variations_ne_nil d keys nm pre T hT
  have hsorted : T.variations.Pairwise (fun a b => b.1.length ≤ a.1.length) := by
    unfold mkTemplate at hT
    rcases hv : definitionVariations d with e | varNames <;> rw [hv] at hT
    · cases hT
    · rcases hf : variationsFold keys nm pre varNames [] with e | vars <;>
        simp only [bind, Except.bind, hf, pure, Except.pure] at hT
      · cases hT
      · have hTv := Except.ok.inj hT
        rw [← hTv]
        exact variationsFold_pairwise keys nm pre varNames [] vars
          (definitionVariations_pairwise d varNames hv) (by simp) (by simp) hf
  refine ⟨hsorted, fun v _ n hn => missingKeysAux_defaults fields v.2.keys n hn, ?_⟩
  rcases hfind : T.variations.find?
      (fun v => (missingKeysAux fields v.2.keys true).isEmpty) with _ | v
  · unfold applyFields
    rw [applyLoop_eq fields T.variations [], hfind]
    dsimp only
    rw [if_neg (by simpa [List.isEmpty_iff] using hne)]
  · unfold applyFields
    rw [applyLoop_eq fields T.variations [], hfind]
    rfl

def c3P : List Char := (r"p").data
def c3Q : List Char := (r"q").data
def c3Def : List Char := (r"{p}[_{q}]").data
def c3Table : AList TemplateKey := [(c3P, mkStrKey c3P 1), (c3Q, mkStrKey c3Q 2)]
def c3T : Template := exOk (mkTemplate c3Def c3Table none [])
def c3Fields : Fields := [(c3P, some (TVal.vstr (r"one").data))]

/-- C3 witness: the theorem at the template `{p}[_{q}]` with fields
supplying only `p` (the longer variation misses `q`; the shorter fits
and renders). -/
theorem claim_C3_witness :
    c3T.variations.Pairwise (fun a b => b.1.length ≤ a.1.length) ∧
    (∀ v ∈ c3T.variations, ∀ n ∈ missingKeysAux c3Fields v.2.keys true,
      (∃ k ∈ AList.valueList v.2.keys, k.name = n ∧ k.default = none) ∧
      pyGet c3Fields n = none) ∧
    (match c3T.variations.find?
        (fun v => (missingKeysAux c3Fields v.2.keys true).isEmpty) with
     | some v =>
         applyFields c3T c3Fields =
           (processedFields c3Fields v.2.keys).bind
             (fun pf => pyFormatMap pf v.2.cleaned_definition)
     | none =>
         applyFields c3T c3Fields =
           Except.error (ApplyErr.missingFields
             ((c3T.variations.getLast?.map
               (fun v => missingKeysAux c3Fields v.2.keys true)).getD []))) :=
  claim_C3_apply_first_fit c3Def c3Table none [] c3T c3Fields rfl

/-! ## Claim C10: a key supplied as `None` counts as missing -/

theorem pyGet_cons_none (fields : Fields) (name : List Char)
    (hname : AList.lookup (α := Option TVal) name fields = none) (k : List Char) :
    pyGet ((name, none) :: fields) k = pyGet fields k := by
  by_cases hk : k = name
  · subst hk
    simp [pyGet, AList.lookup, hname]
  · simp [pyGet, AList.lookup, hk]

theorem missingKeysAux_ext {f1 f2 : Fields} (h : ∀ k, pyGet f1 k = pyGet f2 k)
    (keys : AList TemplateKey) (sd : Bool) :
    missingKeysAux f1 keys sd = missingKeysAux f2 keys sd := by
  unfold missingKeysAux
  exact List.filter_congr (fun k _ => by rw [h k])

theorem processedFields_ext {f1 f2 : Fields} (h : ∀ k, pyGet f1 k = pyGet f2 k)
    (keys : AList TemplateKey) :
    processedFields f1 keys = processedFields f2 keys := by
  unfold processedFields
  have hgen : ∀ (l : List (List Char × TemplateKey)) (acc : AList (List Char)),
      l.foldlM
        (fun acc entry =>
          match entry.2.strFromValue (pyGet f1 entry.1) with
          | Except.ok s => Except.ok (AList.insert entry.1 s acc)
          | Except.error e => Except.error (ApplyErr.strFromValueErr entry.1 e))
        acc =
      l.foldlM
        (fun acc entry =>
          match entry.2.strFromValue (pyGet f2 entry.1) with
          | Except.ok s => Except.ok (AList.insert entry.1 s acc)
          | Except.error e => Except.error (ApplyErr.strFromValueErr entry.1 e))
        acc := by
    intro l
    induction l with
    | nil => intro acc; rfl
    | cons e rest ih =>
        intro acc
        simp only [List.foldlM_cons]
        rw [h e.1]
        rcases e.2.strFromValue (pyGet f2 e.1) with err | s
        · rfl
        · simpa using ih (AList.insert e.1 s acc)
  exact hgen keys []

theorem applyLoop_ext {f1 f2 : Fields} (h : ∀ k, pyGet f1 k = pyGet f2 k) :
    ∀ (vs : List (List Char × TemplateVarInfo)) (lm : List (List Char)),
    applyLoop f1 vs lm = applyLoop f2 vs lm := by
  intro vs
  induction vs with
  | nil => intro lm; rfl
  | cons v rest ih =>
      intro lm
      rw [applyLoop, applyLoop, missingKeysAux_ext h, ih]

theorem applyFields_ext {f1 f2 : Fields} (h : ∀ k, pyGet f1 k = pyGet f2 k)
    (T : Template) : applyFields T f1 = applyFields T f2 := by
  unfold applyFields
  rw [applyLoop_ext h T.variations []]
  rcases applyLoop f2 T.variations [] with ⟨o, lm⟩
  rcases o with _ | vi
  · rfl
  · dsimp only
    rw [processedFields_ext h]

/-- C10: `_missing_keys` reports exactly the required names whose
`fields.get` is `None` — `fields.get` collapsing a name bound to `None`
with an absent name — so a fields mapping extended with `name: None`
yields the same missing list, and `_apply_fields` (which reads the
mapping only through `fields.get`) gives the same outcome on both: a
required key supplied as `None` fails exactly like an absent one. -/
theorem claim_C10_none_counts_missing (T : Template) (fields : Fields)
    (keys : AList TemplateKey) (name : List Char)
    (hname : AList.lookup (α := Option TVal) name fields = none) :
    (∀ n, n ∈ missingKeysAux fields keys true ↔
       n ∈ requiredNames keys true ∧ pyGet fields n = none) ∧
    (∀ k, pyGet ((name, none) :: fields) k = pyGet fields k) ∧
    missingKeysAux ((name, none) :: fields) keys true =
      missingKeysAux fields keys true ∧
    applyFields T ((name, none) :: fields) = applyFields T fields := by
  refine ⟨?_, pyGet_cons_none fields name hname,
    missingKeysAux_ext (pyGet_cons_none fields name hname) keys true,
    applyFields_ext (pyGet_cons_none fields name hname) T⟩
  intro n
  unfold missingKeysAux
  rw [List.mem_filter]
  simp [Option.isNone_iff_eq_none]

def c10W : List Char := (r"w").data
def c10Key : TemplateKey := mkStrKey c10W 1
def c10Keys : AList TemplateKey := [(c10W, c10Key)]
def c10T : Template := exOk (mkTemplate (r"{w}").data c10Keys none [])

/-- C10 witness: the theorem at the template `{w}` with the empty
fields mapping and `name := w` (so `w: None` is reported missing and
`apply_fields` fails identically on `{}` and on `{w: None}`). -/
theorem claim_C10_witness :
    (∀ n, n ∈ missingKeysAux [] c10Keys true ↔
       n ∈ requiredNames c10Keys true ∧ pyGet [] n = none) ∧
    (∀ k, pyGet ((c10W, none) :: []) k = pyGet [] k) ∧
    missingKeysAux ((c10W, none) :: []) c10Keys true =
      missingKeysAux [] c10Keys true ∧
    applyFields c10T ((c10W, none) :: []) = applyFields c10T [] :=
  claim_C10_none_counts_missing c10T [] c10Keys c10W rfl

/-! ## Claim C8: is_optional and the shortest variation -/

theorem aListLookup_mem {α : Type} {k : List Char} {v : α}
    {l : List (List Char × α)} (h : AList.lookup k l = some v) : (k, v) ∈ l := by
  induction l with
  | nil => cases h
  | cons e rest ih =>
      rcases e with ⟨k2, v2⟩
      simp only [AList.lookup] at h
      by_cases hk : k = k2
      · rw [if_pos hk] at h
        have hv := Option.some.inj h
        subst hk
        subst hv
        exact List.mem_cons_self _ rest
      · rw [if_neg hk] at h
        exact List.mem_cons_of_mem _ (ih h)

theorem keysDictEquiv_contains {a b : AList TemplateKey}
    (h : keysDictEquiv a b = true) (k : List Char) :
    AList.contains k a = AList.contains k b := by
  simp only [keysDictEquiv, Bool.and_eq_true, List.all_eq_true] at h
  rcases h with ⟨ha, hb⟩
  unfold AList.contains
  rcases hla : AList.lookup k a with _ | v
  · rcases hlb : AList.lookup k b with _ | w
    · rfl
    · have hc := hb (k, w) (aListLookup_mem hlb)
      dsimp only at hc
      rw [hla] at hc
      cases hc
  · rcases hlb : AList.lookup k b with _ | w
    · have hc := ha (k, v) (aListLookup_mem hla)
      dsimp only at hc
      rw [hlb] at hc
      cases hc
    · rfl

theorem pyDictLt_min_step {m acc x : AList TemplateKey}
    (hQ : keysDictEquiv acc m = true ∧ AList.size acc = AList.size m)
    (hD : AList.size m < AList.size x ∨
      (keysDictEquiv x m = true ∧ AList.size x = AList.size m)) :
    keysDictEquiv (if pyDictLt x acc then x else acc) m = true ∧
    AList.size (if pyDictLt x acc then x else acc) = AList.size m := by
  by_cases hlt : pyDictLt x acc = true
  · rw [if_pos hlt]
    rcases hD with hD | hD
    · exfalso
      unfold pyDictLt at hlt
      rw [if_pos (by omega : AList.size x ≠ AList.size acc)] at hlt
      simp only [decide_eq_true_eq] at hlt
      omega
    · exact hD
  · rw [if_neg hlt]
    exact hQ

theorem pyDictFoldQ (m : AList TemplateKey) :
    ∀ (l : List (AList TemplateKey)) (acc : AList TemplateKey),
    (∀ d ∈ l, AList.size m < AList.size d ∨
      (keysDictEquiv d m = true ∧ AList.size d = AList.size m)) →
    (keysDictEquiv acc m = true ∧ AList.size acc = AList.size m) →
    keysDictEquiv (l.foldl (fun acc2 x => if pyDictLt x acc2 then x else acc2) acc) m
      = true ∧
    AList.size (l.foldl (fun acc2 x => if pyDictLt x acc2 then x else acc2) acc)
      = AList.size m := by
  intro l
  induction l with
  | nil => intro acc _ hQ; simpa using hQ
  | cons x rest ih =>
      intro acc hD hQ
      rw [List.foldl_cons]
      exact ih _ (fun d hd => hD d (List.mem_cons_of_mem x hd))
        (pyDictLt_min_step hQ (hD x (List.mem_cons_self x rest)))

theorem pyDictFoldB (m : AList TemplateKey)
    (hrefl : keysDictEquiv m m = true) :
    ∀ (l : List (AList TemplateKey)) (acc : AList TemplateKey),
    (∀ d ∈ l, AList.size m < AList.size d ∨
      (keysDictEquiv d m = true ∧ AList.size d = AList.size m)) →
    (AList.size m < AList.size acc ∨
      (keysDictEquiv acc m = true ∧ AList.size acc = AList.size m)) →
    (m ∈ l ∨ (keysDictEquiv acc m = true ∧ AList.size acc = AList.size m)) →
    keysDictEquiv (l.foldl (fun acc2 x => if pyDictLt x acc2 then x else acc2) acc) m
      = true ∧
    AList.size (l.foldl (fun acc2 x => if pyDictLt x acc2 then x else acc2) acc)
      = AList.size m := by
  intro l
  induction l with
  | nil =>
      intro acc _ _ hor
      rcases hor with hmem | hQ
      · cases hmem
      · simpa using hQ
  | cons x rest ih =>
      intro acc hDl hDacc hor
      rw [List.foldl_cons]
      rcases hor with hmem | hQ
      · rcases List.mem_cons.mp hmem with rfl | hmem2
        · refine pyDictFoldQ m rest _
            (fun d hd => hDl d (List.mem_cons_of_mem m hd)) ?_
          rcases hDacc with hbig | hQacc
          · have hlt : pyDictLt m acc = true := by
              unfold pyDictLt
              rw [if_pos (by omega : AList.size m ≠ AList.size acc)]
              simpa using hbig
            rw [if_pos hlt]
            exact ⟨hrefl, rfl⟩
          · exact pyDictLt_min_step hQacc (Or.inr ⟨hrefl, rfl⟩)
        · have hstep : AList.size m <
              AList.size (if pyDictLt x acc then x else acc) ∨
              (keysDictEquiv (if pyDictLt x acc then x else acc) m = true ∧
               AList.size (if pyDictLt x acc then x else acc) = AList.size m) := by
            by_cases hlt : pyDictLt x acc = true
            · rw [if_pos hlt]
              exact hDl x (List.mem_cons_self x rest)
            · rw [if_neg hlt]
              exact hDacc
          exact ih _ (fun d hd => hDl d (List.mem_cons_of_mem x hd)) hstep
            (Or.inl hmem2)
      · refine pyDictFoldQ m rest _
          (fun d hd => hDl d (List.mem_cons_of_mem x hd))
          (pyDictLt_min_step hQ (hDl x (List.mem_cons_self x rest)))

theorem pyDictMin_equiv (m : AList TemplateKey) (l : List (AList TemplateKey))
    (hmem : m ∈ l)
    (hmin : ∀ d ∈ l, AList.size m < AList.size d ∨
      (keysDictEquiv d m = true ∧ AList.size d = AList.size m))
    (hrefl : keysDictEquiv m m = true) :
    keysDictEquiv (pyDictMin l) m = true := by
  rcases l with _ | ⟨d, rest⟩
  · cases hmem
  · unfold pyDictMin
    rcases List.mem_cons.mp hmem with rfl | hmem2
    · exact (pyDictFoldB m hrefl rest m
        (fun d2 hd => hmin d2 (List.mem_cons_of_mem m hd))
        (Or.inr ⟨hrefl, rfl⟩) (Or.inr ⟨hrefl, rfl⟩)).1
    · exact (pyDictFoldB m hrefl rest d
        (fun d2 hd => hmin d2 (List.mem_cons_of_mem d hd))
        (hmin d (List.mem_cons_self d rest)) (Or.inl hmem2)).1

/-- C8 (amended): `is_optional(k)` is computed against the **minimal**
per-variation key dict under Python-2 dict ordering, which compares by
size first: for any `m` in the key-dict list of minimal size (every
other dict being strictly larger or dict-equal to `m`),
`is_optional(k)` is true iff `k` is absent from `m` — and then the
min dict itself is a variation key set not containing `k`, so "absent
from the shortest variation" implies "some variation lacks `k`".  The
converse direction of the claim's second characterisation is false
(`claim_C8_counterexample`). -/
theorem claim_C8_optional_min (T : Template) (m : AList TemplateKey) (k : List Char)
    (hmem : m ∈ T.keysList)
    (hmin : ∀ d ∈ T.keysList, AList.size m < AList.size d ∨
      (keysDictEquiv d m = true ∧ AList.size d = AList.size m))
    (hrefl : keysDictEquiv m m = true) :
    (isOptional T k = true ↔ AList.contains k m = false) ∧
    (isOptional T k = true → ∃ d ∈ T.keysList, AList.contains k d = false) := by
  have hq : keysDictEquiv (pyDictMin T.keysList) m = true :=
    pyDictMin_equiv m T.keysList hmem hmin hrefl
  have hc : AList.contains k (pyDictMin T.keysList) = AList.contains k m :=
    keysDictEquiv_contains hq k
  have hiff : isOptional T k = true ↔ AList.contains k m = false := by
    unfold isOptional
    rw [hc]
    cases hb : AList.contains k m <;> simp [hb]
  exact ⟨hiff, fun hopt => ⟨m, hmem, hiff.mp hopt⟩⟩

def c8My : List Char := (r"my").data
def c8Mx : List Char := (r"mx").data
def c8Ky : List Char := (r"ky").data
def c8KeyMy : TemplateKey := mkStrKey c8My 1
def c8KeyMx : TemplateKey := mkStrKey c8Mx 2
def c8KeyKy : TemplateKey := mkStrKey c8Ky 3
def c8Table : AList TemplateKey :=
  [(c8My, c8KeyMy), (c8Mx, c8KeyMx), (c8Ky, c8KeyKy)]
def c8T : Template := exOk (mkTemplate (r"{m[x}{k]y}").data c8Table none [])
def c8Long : AList TemplateKey := [(c8Mx, c8KeyMx), (c8Ky, c8KeyKy)]
def c8Short : AList TemplateKey := [(c8My, c8KeyMy)]

/-- C8 (counterexample): the template `{m[x}{k]y}` has the variations
`{mx}{ky}` and `{my}`; the variation `{mx}{ky}` does **not** contain
the key name `my`, yet `is_optional("my")` is `False` (the min key
dict is the smaller `{my}` one, which contains it) — refuting the
claimed equivalence with "there exists a variation of T that does not
contain k". -/
theorem claim_C8_counterexample :
    c8T.keysList = [c8Long, c8Short] ∧
    AList.contains c8My c8Long = false ∧
    isOptional c8T c8My = false :=
  ⟨rfl, rfl, rfl⟩

/-- C8 witness: the amended theorem at the template `{m[x}{k]y}` with
the minimal dict `{my}` and the key name `mx` (optional, and indeed
absent from the min dict). -/
theorem claim_C8_witness :
    (isOptional c8T c8Mx = true ↔ AList.contains c8Mx c8Short = false) ∧
    (isOptional c8T c8Mx = true →
      ∃ d ∈ c8T.keysList, AList.contains c8Mx d = false) :=
  claim_C8_optional_min c8T c8Short c8Mx
    (by rw [show c8T.keysList = [c8Long, c8Short] from rfl]
        exact List.mem_cons_of_mem _ (List.mem_cons_self _ _))
    (by rw [show c8T.keysList = [c8Long, c8Short] from rfl]
        intro d hd
        rcases List.mem_cons.mp hd with rfl | hd2
        · left
          decide
        · rcases List.mem_cons.mp hd2 with rfl | hd3
          · right
            exact ⟨by decide, rfl⟩
          · cases hd3)
    (by decide)

end TkCore
